import Mathlib

set_option maxHeartbeats 1000000

/-
Shallow embedding of the mcp-debug-hub VS Code extension (TypeScript).

Conventions used throughout:
* `vscode.debug.breakpoints` is modelled as a `List VsBp`; `addBreakpoints`
  appends, `removeBreakpoints` filters out the matched entries.
* `vscode.Uri.file(p).fsPath` is modelled as the identity on strings.
* Thrown JavaScript `Error(msg)` values are modelled as `Except.error msg`.
* Opaque engine-assigned breakpoint ids are not modelled (no claim concerns
  them); all other record fields are carried.
-/

/-- Debug session lifecycle state (`DebugState` in `src/types`). -/
inductive DebugState where
  | idle
  | launching
  | running
  | paused
  | stopped
  deriving DecidableEq, Repr

namespace Breakpoints

/-- One `vscode.SourceBreakpoint`: a location (`fsPath`, 0-based start line,
start character), the optional condition / hitCondition / logMessage, and the
enabled flag. -/
structure SourceBp where
  fsPath : String
  line0 : Nat
  column : Nat
  condition : Option String
  hitCondition : Option String
  logMessage : Option String
  enabled : Bool
  deriving DecidableEq, Repr

/-- An entry of `vscode.debug.breakpoints`: either a source breakpoint or some
other kind (function breakpoint, ...), which every `instanceof
vscode.SourceBreakpoint` filter in the source skips. -/
inductive VsBp where
  | source (sb : SourceBp)
  | other
  deriving DecidableEq, Repr

/-- `BreakpointInfo` from `src/types` (minus the opaque engine id). -/
structure BreakpointInfo where
  file : String
  line : Nat
  column : Option Nat
  condition : Option String
  hitCondition : Option String
  logMessage : Option String
  enabled : Bool
  verified : Bool
  deriving DecidableEq, Repr

/-- The location filter used by `Breakpoints.remove` and `Breakpoints.toggle`:
a source breakpoint whose `fsPath` equals the file and whose 0-based start
line equals `line - 1`. -/
def matchesLoc (file : String) (line : Nat) : VsBp → Bool
  | .source sb => sb.fsPath == file && sb.line0 == line - 1
  | .other => false

/-- The source breakpoints matching a location, in list order (the underlying
data of the `filter` in `Breakpoints.toggle`, which only ever matches
`SourceBreakpoint`s). -/
def sourceMatches (bps : List VsBp) (file : String) (line : Nat) : List SourceBp :=
  bps.filterMap fun b =>
    match b with
    | .source sb => if sb.fsPath == file && sb.line0 == line - 1 then some sb else none
    | .other => none

/-- `Breakpoints.set(filePath, line, options)`: builds a `SourceBreakpoint` at
`(line - 1, 0)` with `enabled = true`, adds it, and returns the record whose
`enabled` and `verified` fields are both copied from `breakpoint.enabled`.
Result: the returned `BreakpointInfo` and the new breakpoint list. -/
def set (bps : List VsBp) (filePath : String) (line : Nat)
    (condition hitCondition logMessage : Option String) :
    BreakpointInfo × List VsBp :=
  let bp : SourceBp :=
    { fsPath := filePath, line0 := line - 1, column := 0,
      condition := condition, hitCondition := hitCondition,
      logMessage := logMessage, enabled := true }
  ({ file := filePath, line := line, column := none,
     condition := condition, hitCondition := hitCondition,
     logMessage := logMessage, enabled := bp.enabled, verified := bp.enabled },
   bps ++ [VsBp.source bp])

/-- `Breakpoints.getAll()`: every source breakpoint, rendered with a 1-based
line, the column only when positive, and `verified` copied from `enabled`. -/
def getAll (bps : List VsBp) : List BreakpointInfo :=
  bps.filterMap fun b =>
    match b with
    | .source sb =>
      some { file := sb.fsPath, line := sb.line0 + 1,
             column := if 0 < sb.column then some sb.column else none,
             condition := sb.condition, hitCondition := sb.hitCondition,
             logMessage := sb.logMessage,
             enabled := sb.enabled, verified := sb.enabled }
    | .other => none

/-- `Breakpoints.toggle(filePath, line, enabled)`: filters the matching
breakpoints; throws `No breakpoint found at file:line` if none; otherwise
removes every match and re-adds the first match's location and condition
fields with the new enabled flag. -/
def toggle (bps : List VsBp) (file : String) (line : Nat) (enabled : Bool) :
    Except String (List VsBp) :=
  match sourceMatches bps file line with
  | [] => Except.error ("No breakpoint found at " ++ file ++ ":" ++ toString line)
  | old :: _ =>
    let removed := bps.filter fun b => !(matchesLoc file line b)
    Except.ok (removed ++ [VsBp.source { old with enabled := enabled }])

end Breakpoints

namespace Mcp

/-- The relevant part of an MCP `CallToolResult`: the `isError` flag and the
single text content item every handler in this repository produces. -/
structure CallToolResult where
  isError : Bool
  text : String
  deriving DecidableEq, Repr

/-- `createErrorResult` from `src/mcp/utils.ts`: wraps an error message into a
structured failure result (`isError = true` plus the message text). The
`error instanceof Error ? error.message : String(error)` step is modelled by
taking the message string directly. -/
def createErrorResult (errorMessage : String) : CallToolResult :=
  { isError := true, text := errorMessage }

/-- The `launch_debug` tool handler from `src/mcp/tools/session.ts`,
abstracted over the outcome of its `try` body (workspace lookup, config
lookup and `sessions.launch`, any of which may throw): a thrown error is
caught and converted with `createErrorResult`; success reports the session
id. -/
def launchDebugHandler (body : Except String String) : Except String CallToolResult :=
  match body with
  | .ok sid =>
    .ok { isError := false,
          text := "Debug session launched successfully (ID: " ++ sid ++ ")" }
  | .error e => .ok (createErrorResult e)

/-- The `stop_debug` tool handler from `src/mcp/tools/session.ts`, abstracted
over the outcome of `sessions.terminate`: errors are caught and converted. -/
def stopDebugHandler (body : Except String Unit) : Except String CallToolResult :=
  match body with
  | .ok _ => .ok { isError := false, text := "Debug session stopped successfully" }
  | .error e => .ok (createErrorResult e)

/-- The `evaluate_expression` tool handler from `src/mcp/tools/inspection.ts`,
abstracted over the outcome of its body (session resolution plus
`inspection.evaluateExpression`): errors are caught and converted; the
success text is the JSON rendering of the result string. -/
def evaluateExpressionHandler (body : Except String String) :
    Except String CallToolResult :=
  match body with
  | .ok result => .ok { isError := false, text := "\"" ++ result ++ "\"" }
  | .error e => .ok (createErrorResult e)

/-- The `set_breakpoint` tool handler from `src/mcp/tools/breakpoint.ts`,
abstracted over the outcome of `breakpoints.set`. Unlike the session and
inspection handlers, its `catch` block logs and then RETHROWS the error
(`throw error;`), so a failure propagates out of the handler instead of being
converted into a structured failure result. -/
def setBreakpointHandler (body : Except String Breakpoints.BreakpointInfo)
    (file : String) : Except String CallToolResult :=
  match body with
  | .ok bp =>
    .ok { isError := false,
          text := "Breakpoint set at " ++ file ++ ":" ++ toString bp.line ++
            (if bp.verified then " (verified)" else " (pending)") }
  | .error e => .error e

end Mcp

namespace Inspection

/-- `ThreadInfo` from `src/types`. -/
structure ThreadInfo where
  id : Nat
  name : String
  deriving DecidableEq, Repr

/-- A debug-adapter stack frame as consumed by the managers: its id, name,
`source?.path` (absent when the frame has no source), line and column. -/
structure StackFrame where
  id : Nat
  name : String
  source : Option String
  line : Nat
  column : Nat
  deriving DecidableEq, Repr

/-- The external debug engine's generic request surface for one session, as
used by the `Inspection` manager: the `threads` request, the 1-level
`stackTrace` request per thread id, and the `evaluate` request per
(expression, frameId). Each may fail, modelling a thrown `customRequest`. A
null/absent response body is modelled as `.ok []`. -/
structure DebugEnv where
  threads : Except String (List ThreadInfo)
  stack1 : Nat → Except String (List StackFrame)
  evalReq : String → Nat → Except String String

/-- `Inspection.getCurrentFrameId(session)` (the session-aware manager):
takes the FIRST reported thread, issues a 1-level stack query for it, and
returns its top frame id; throws `No threads found in debug session` when the
thread list is empty and `No stack frames found. Is the debugger paused?`
when the first thread has no frames. -/
def getCurrentFrameId (env : DebugEnv) : Except String Nat :=
  match env.threads with
  | .error m => .error m
  | .ok [] => .error "No threads found in debug session"
  | .ok (t :: _) =>
    match env.stack1 t.id with
    | .error m => .error m
    | .ok [] => .error "No stack frames found. Is the debugger paused?"
    | .ok (f :: _) => .ok f.id

/-- `Inspection.evaluateExpression(expression, frameId?, ...)`: resolves the
frame id (explicit if given, otherwise `getCurrentFrameId`), then issues the
`evaluate` request; the `catch` block logs and rethrows, which is the
identity on the error. -/
def evaluateExpression (env : DebugEnv) (expression : String)
    (frameId : Option Nat) : Except String String :=
  match frameId with
  | some f => env.evalReq expression f
  | none =>
    match getCurrentFrameId env with
    | .error m => .error m
    | .ok fid => env.evalReq expression fid

/-- `DebugLocation` from `src/types` (the per-thread variant used by the
session-aware `getCurrentLocation`). -/
structure DebugLocation where
  threadId : Nat
  threadName : String
  file : String
  line : Nat
  column : Nat
  deriving DecidableEq, Repr

/-- The per-thread step of `Inspection.getCurrentLocation(session)`: a
1-level stack query for the thread; a query error (inner `catch`), an empty
frame list, or a top frame without a source path all yield no entry. -/
def locationForThread (env : DebugEnv) (t : ThreadInfo) : Option DebugLocation :=
  match env.stack1 t.id with
  | .error _ => none
  | .ok [] => none
  | .ok (f :: _) =>
    match f.source with
    | none => none
    | some path =>
      some { threadId := t.id, threadName := t.name,
             file := path, line := f.line, column := f.column }

/-- `Inspection.getCurrentLocation(session)` (plural, session-aware): lists
the threads (a failing or empty `threads` request yields `[]` via the outer
`catch`), then collects the location of every thread that has a sourced top
frame, skipping the rest. -/
def getCurrentLocation (env : DebugEnv) : List DebugLocation :=
  match env.threads with
  | .error _ => []
  | .ok ts => ts.filterMap (locationForThread env)

/-- The `get_current_location` tool handler core from
`src/mcp/tools/inspection.ts`: an empty location list is turned into a
descriptive error, a non-empty one is returned as success. -/
def getCurrentLocationHandler (env : DebugEnv) : Except String (List DebugLocation) :=
  let locations := getCurrentLocation env
  if locations.length == 0 then
    Except.error
      "No threads are paused. Use continue_execution, step_over, or hit a breakpoint first."
  else Except.ok locations

/-- A session with two threads where only the SECOND thread is paused with a
frame: thread 1 reports no frames, thread 2 reports one sourced frame. -/
def envTwoThreads : DebugEnv :=
  { threads := Except.ok [{ id := 1, name := "T1" }, { id := 2, name := "T2" }],
    stack1 := fun tid =>
      if tid == 2 then
        Except.ok [{ id := 7, name := "main", source := some "/a.py", line := 3, column := 1 }]
      else Except.ok [],
    evalReq := fun _ _ => Except.ok "42" }

/-- A session with thread 1 paused on a sourced frame and thread 2 running
with no frames (the scenario of the spec's testable property for
`get_current_location`). -/
def envOnePaused : DebugEnv :=
  { threads := Except.ok [{ id := 1, name := "T1" }, { id := 2, name := "T2" }],
    stack1 := fun tid =>
      if tid == 1 then
        Except.ok [{ id := 10, name := "main", source := some "/a.py", line := 5, column := 1 }]
      else Except.ok [],
    evalReq := fun _ _ => Except.ok "" }

end Inspection

namespace MutexModel

/-- Modelled from the spec: the Request Serializer (`Mutex` imported from
`@/mutex`, whose implementation file is not under src/ — only its callers
are). A tool invocation is a job with a number of observable body steps and a
flag saying whether its wrapped function throws. -/
structure Job where
  steps : Nat
  throws : Bool
  deriving DecidableEq, Repr

/-- Observable events of the serialized execution: lock acquisition by a
caller, one step of a caller's body, lock release, and the propagation of a
thrown error (after release, per the spec: "Failure inside the wrapped
function releases the lock before propagating"). -/
inductive Ev where
  | acquire (i : Nat)
  | body (i : Nat) (k : Nat)
  | release (i : Nat)
  | threw (i : Nat)
  deriving DecidableEq, Repr

/-- Modelled from the spec: the events produced by `runExclusive` for the
caller with arrival index `i`: acquire, run the body to completion or to its
throw point, release, then (only then) propagate the error if any. -/
def runJob (i : Nat) (j : Job) : List Ev :=
  Ev.acquire i :: ((List.range j.steps).map (Ev.body i) ++
    ([Ev.release i] ++ (if j.throws then [Ev.threw i] else [])))

/-- Modelled from the spec: FIFO service of the queued callers starting at
arrival index `n` — each caller's whole `runJob` block completes before the
next caller acquires the lock. -/
def scheduleFrom (n : Nat) : List Job → List Ev
  | [] => []
  | j :: rest => runJob n j ++ scheduleFrom (n + 1) rest

/-- Modelled from the spec: the full serialized schedule of a queue of jobs
in arrival order. -/
def schedule (jobs : List Job) : List Ev :=
  scheduleFrom 0 jobs

/-- The arrival indices of the body-step events of a schedule, in execution
order. -/
def bodiesOf (evl : List Ev) : List Nat :=
  evl.filterMap fun e =>
    match e with
    | .body i _ => some i
    | _ => none

/-- The arrival indices of the lock acquisitions of a schedule, in execution
order. -/
def acquiresOf (evl : List Ev) : List Nat :=
  evl.filterMap fun e =>
    match e with
    | .acquire i => some i
    | _ => none

end MutexModel

namespace Sessions

/-- `SessionNode` from `src/types`: the registry's per-session record. The
engine-provided metadata (name, type, workspaceFolder, startTime) is carried
by the `vscode.DebugSession` object and is not relevant to any claim, so only
the registry-managed fields are modelled. -/
structure SessionNode where
  parent : Option String
  children : List String
  state : DebugState
  deriving DecidableEq, Repr

/-- The `Sessions.sessions` JavaScript `Map`, modelled as an association list
in insertion order (a JS `Map` iterates in insertion order; `set` of a new
key appends, `delete` removes). -/
abbrev Registry := List (String × SessionNode)

/-- The keys of the registry, in insertion order. -/
def keys (r : Registry) : List String := r.map Prod.fst

/-- `Map.get`: the node stored under a session id, if any. -/
def lookup (r : Registry) (sid : String) : Option SessionNode :=
  match r.find? (fun e => e.1 == sid) with
  | some e => some e.2
  | none => none

/-- `Map.has`. -/
def hasId (r : Registry) (sid : String) : Bool := (lookup r sid).isSome

/-- `session.parentSession?.id || null`: an absent parent session or an empty
id string both yield `null`. -/
def parentField (parentSessionId : Option String) : Option String :=
  match parentSessionId with
  | some p => if p == "" then none else some p
  | none => none

/-- In-place update of the node stored under `pid` (mutating the `Map` entry
object), leaving all other entries and all keys unchanged. -/
def mapAt (r : Registry) (pid : String) (f : SessionNode → SessionNode) : Registry :=
  r.map fun e => if e.1 == pid then (e.1, f e.2) else e

/-- `Sessions.addSession(session)` (the `onDidStartDebugSession` handler): a
no-op when the id is already tracked; otherwise inserts a node with
`parent = session.parentSession?.id || null`, empty children and state
`running`, then — if the parent id is found in the map — appends this id to
the parent's children. -/
def addSession (r : Registry) (sid : String) (parentSessionId : Option String) : Registry :=
  if hasId r sid then r
  else
    let par := parentField parentSessionId
    let r1 := r ++ [(sid, { parent := par, children := [], state := DebugState.running })]
    match par with
    | some p =>
      if hasId r1 p then mapAt r1 p (fun nd => { nd with children := nd.children ++ [sid] })
      else r1
    | none => r1

/-- `Sessions.removeSession(sessionId)` (also the `onDidTerminateDebugSession`
handler): a no-op on an untracked id; otherwise splices the id out of its
parent's children list (when that parent is tracked) and deletes the entry.
Children of the removed session are not touched. -/
def removeSession (r : Registry) (sid : String) : Registry :=
  match lookup r sid with
  | none => r
  | some nd =>
    let r1 :=
      match nd.parent with
      | some pid =>
        if hasId r pid then
          mapAt r pid (fun p => { p with children := p.children.filter (fun c => c != sid) })
        else r
      | none => r
    r1.filter fun e => e.1 != sid

/-- `SessionTreeNode` from `src/types` (metadata fields other than id and
state omitted, as in `SessionNode`). -/
inductive SessionTreeNode where
  | mk (id : String) (state : DebugState) (children : List SessionTreeNode)

/-- The id at the root of a tree node. -/
def SessionTreeNode.id : SessionTreeNode → String
  | .mk i _ _ => i

/-- `SessionTree` from `src/types`. -/
structure SessionTree where
  roots : List SessionTreeNode
  totalSessions : Nat

/-- Sequencing of optional results: `some` of the list exactly when every
element is `some` (the effect of an exception-free traversal). -/
def seqOption {α : Type} : List (Option α) → Option (List α)
  | [] => some []
  | none :: _ => none
  | some t :: rest =>
    match seqOption rest with
    | some ts => some (t :: ts)
    | none => none

/-- `Sessions.buildTreeNode(sessionId)`: looks the id up (a missing id throws
`Session ... not found`, modelled as `none`) and recursively builds the
children. The source recursion is unbounded; it is embedded with explicit
fuel, `none` also modelling fuel exhaustion — on every state reachable by the
registry operations, fuel `r.length` is proven sufficient below. -/
def buildTreeNode (r : Registry) : Nat → String → Option SessionTreeNode
  | 0, _ => none
  | fuel + 1, sid =>
    match lookup r sid with
    | none => none
    | some nd =>
      match seqOption (nd.children.map (buildTreeNode r fuel)) with
      | some cs => some (SessionTreeNode.mk sid nd.state cs)
      | none => none

/-- The ids of the sessions with no parent, in insertion order (the roots
loop of `getSessionTree`). -/
def rootIds (r : Registry) : List String :=
  (r.filter fun e => e.2.parent.isNone).map Prod.fst

/-- `Sessions.getSessionTree()`: builds a tree from every root;
`totalSessions` is the size of the session map. `none` models the (never
reached on reachable states) `Session not found` throw of `buildTreeNode`. -/
def getSessionTree (r : Registry) : Option SessionTree :=
  match seqOption ((rootIds r).map (buildTreeNode r r.length)) with
  | some roots => some { roots := roots, totalSessions := r.length }
  | none => none

/-- Whether a built tree node (or any descendant) carries the given id. -/
def containsId (sid : String) : SessionTreeNode → Bool
  | .mk tid _ cs => tid == sid || containsIdList sid cs
where
  /-- Whether any tree node of the list (or a descendant) carries the id. -/
  containsIdList (sid : String) : List SessionTreeNode → Bool
  | [] => false
  | t :: ts => containsId sid t || containsIdList sid ts

/-- A session-start event observed by `waitForSession`'s subscription, with
its arrival time in milliseconds after the subscription is installed. -/
structure StartEvent where
  sid : String
  timeMs : Nat
  deriving DecidableEq, Repr

/-- The 10-second bound of `Sessions.waitForSession` (`setTimeout(..., 10000)`). -/
def timeoutMs : Nat := 10000

/-- `Sessions.waitForSession()`: resolves with the id of the NEXT
session-start event if it arrives before the 10s timer fires, and rejects
with `Timeout waiting for debug session` otherwise (later events cannot
settle the already-settled promise). `events` is the stream of start events
after the subscription. -/
def waitForSession (events : List StartEvent) : Except String String :=
  match events with
  | [] => Except.error "Timeout waiting for debug session"
  | e :: _ =>
    if e.timeMs < timeoutMs then Except.ok e.sid
    else Except.error "Timeout waiting for debug session"

/-- `Sessions.launch(launchConfig)`: subscribes `waitForSession`, asks the
engine to start (`vscode.debug.startDebugging`), throws `Failed to start
debug session` when the engine declines, and otherwise awaits the
session-start event. -/
def launch (events : List StartEvent) (engineAccepts : Bool) : Except String String :=
  if engineAccepts then waitForSession events
  else Except.error "Failed to start debug session"

/-- A call of the external engine's start primitive
(`vscode.debug.startDebugging`). -/
inductive EngineCall where
  | startDebugging
  deriving DecidableEq, Repr

/-- `Sessions.launchChild(parentSessionId, config, options)`: throws
`Parent session ... not found` BEFORE contacting the engine when the parent
id is untracked; otherwise calls `startDebugging` with the parent linkage and
proceeds as `launch`. The result carries the outcome, the engine calls made,
and the registry as left by the call itself (session insertion happens in the
separate start-event subscription, not here). -/
def launchChild (r : Registry) (pid : String) (events : List StartEvent)
    (engineAccepts : Bool) : Except String String × List EngineCall × Registry :=
  match lookup r pid with
  | none => (Except.error ("Parent session " ++ pid ++ " not found"), [], r)
  | some _ =>
    if engineAccepts then (waitForSession events, [EngineCall.startDebugging], r)
    else (Except.error "Failed to start child debug session", [EngineCall.startDebugging], r)

/-- The registry states reachable from the empty registry by the
start/terminate event handlers. The side condition on `add` records the
engine guarantee that a session's `parentSession`, when present, is a
different, previously created session object, so its id differs from the new
session's own id. -/
inductive Reachable : Registry → Prop where
  | empty : Reachable []
  | add {r : Registry} (sid : String) (psid : Option String)
      (hne : psid ≠ some sid) (h : Reachable r) : Reachable (addSession r sid psid)
  | remove {r : Registry} (sid : String) (h : Reachable r) :
      Reachable (removeSession r sid)

/-- Position of a key in a key list (length of the list when absent). -/
def idxOf : List String → String → Nat
  | [], _ => 0
  | k :: rest, a => if k == a then 0 else idxOf rest a + 1

/-- A concrete registry history: root session `a`, then child session `b`
whose engine-supplied parent is `a`. -/
def c1reg : Registry := addSession (addSession [] "a" none) "b" (some "a")

/-- A concrete registry history: root `p`, child `c` of `p`, then the parent
`p` terminates while its child remains tracked. -/
def c2reg : Registry := removeSession (addSession (addSession [] "p" none) "c" (some "p")) "p"

/-- The inductive invariant of the registry: keys are distinct; every id in a
children list belongs to an entry appearing strictly later whose parent field
names exactly this parent; children lists are duplicate-free. -/
structure Inv (r : Registry) : Prop where
  nodup : (keys r).Nodup
  childLink : ∀ p nd c, (p, nd) ∈ r → c ∈ nd.children →
    [p, c].Sublist (keys r) ∧ ∃ cn, lookup r c = some cn ∧ cn.parent = some p
  childNodup : ∀ p nd, (p, nd) ∈ r → nd.children.Nodup

end Sessions

namespace Breakpoints

theorem mem_sourceMatches (bps : List VsBp) (file : String) (line : Nat) :
    ∀ sb ∈ sourceMatches bps file line, sb.fsPath = file ∧ sb.line0 = line - 1 := by
  intro sb h
  rw [sourceMatches] at h
  obtain ⟨b, hb, hfb⟩ := List.mem_filterMap.mp h
  cases b with
  | other => simp at hfb
  | source sb2 =>
    have hfb2 : (if (sb2.fsPath == file && sb2.line0 == line - 1) = true
        then some sb2 else none) = some sb := hfb
    rcases Decidable.em ((sb2.fsPath == file && sb2.line0 == line - 1) = true) with hc | hc
    · rw [if_pos hc] at hfb2
      cases hfb2
      simp only [Bool.and_eq_true, beq_iff_eq] at hc
      exact hc
    · rw [if_neg hc] at hfb2
      cases hfb2

theorem getAll_append (l1 l2 : List VsBp) :
    getAll (l1 ++ l2) = getAll l1 ++ getAll l2 := by
  simp [getAll, List.filterMap_append]

theorem getAll_removed_filter (bps : List VsBp) (file : String) (line : Nat) :
    (getAll (bps.filter fun b => !(matchesLoc file line b))).filter
      (fun i => i.file == file && i.line == line) = [] := by
  rw [List.filter_eq_nil_iff]
  intro i hi
  obtain ⟨b, hb, hfb⟩ := List.mem_filterMap.mp hi
  obtain ⟨hbmem, hbkeep⟩ := List.mem_filter.mp hb
  cases b with
  | other => simp at hfb
  | source sb =>
    cases hfb
    have hm : matchesLoc file line (VsBp.source sb) = false := by
      simpa using hbkeep
    intro hcontra
    simp only [Bool.and_eq_true, beq_iff_eq] at hcontra
    obtain ⟨h1, h2⟩ := hcontra
    have hl0 : sb.line0 = line - 1 := by omega
    simp [matchesLoc, h1, hl0] at hm

end Breakpoints

/-- C10: `Breakpoints.set(file, line, options)` returns a record with
`enabled = true` and `verified = true` unconditionally (`verified` is copied
from the breakpoint's `enabled` flag, not from engine feedback), whose file,
line, condition, hitCondition and logMessage equal the supplied inputs; and
every record produced by `getAll()` reports `verified` equal to `enabled`. -/
theorem c10_set_fields_and_verified :
    (∀ bps file line cond hc lm,
      (Breakpoints.set bps file line cond hc lm).1.enabled = true ∧
      (Breakpoints.set bps file line cond hc lm).1.verified = true ∧
      (Breakpoints.set bps file line cond hc lm).1.file = file ∧
      (Breakpoints.set bps file line cond hc lm).1.line = line ∧
      (Breakpoints.set bps file line cond hc lm).1.condition = cond ∧
      (Breakpoints.set bps file line cond hc lm).1.hitCondition = hc ∧
      (Breakpoints.set bps file line cond hc lm).1.logMessage = lm) ∧
    (∀ bps, ∀ i ∈ Breakpoints.getAll bps, i.verified = i.enabled) := by
  constructor
  · intro bps file line cond hc lm
    exact ⟨rfl, rfl, rfl, rfl, rfl, rfl, rfl⟩
  · intro bps i hi
    obtain ⟨b, hb, hfb⟩ := List.mem_filterMap.mp hi
    cases b with
    | other => simp at hfb
    | source sb => cases hfb; rfl

/-- Witness for C10 at a concrete input: a freshly `set` breakpoint record
and a concrete `getAll` entry. -/
theorem c10_witness :
    (({ file := "/a.py", line := 3, column := none, condition := some "x>1",
        hitCondition := none, logMessage := none, enabled := true,
        verified := true } : Breakpoints.BreakpointInfo) ∈
      Breakpoints.getAll [Breakpoints.VsBp.source
        { fsPath := "/a.py", line0 := 2, column := 0, condition := some "x>1",
          hitCondition := none, logMessage := none, enabled := true }]) ∧
    ({ file := "/a.py", line := 3, column := none, condition := some "x>1",
       hitCondition := none, logMessage := none, enabled := true,
       verified := true } : Breakpoints.BreakpointInfo).verified =
      ({ file := "/a.py", line := 3, column := none, condition := some "x>1",
         hitCondition := none, logMessage := none, enabled := true,
         verified := true } : Breakpoints.BreakpointInfo).enabled :=
  ⟨by decide, c10_set_fields_and_verified.2
    [Breakpoints.VsBp.source
      { fsPath := "/a.py", line0 := 2, column := 0, condition := some "x>1",
        hitCondition := none, logMessage := none, enabled := true }]
    { file := "/a.py", line := 3, column := none, condition := some "x>1",
      hitCondition := none, logMessage := none, enabled := true,
      verified := true } (by decide)⟩

/-- C7: `toggle(file, line, enabled)` fails with the `BreakpointNotFound`
error (`No breakpoint found at file:line`) exactly when no source breakpoint
sits at that (file, 1-based line); otherwise it removes the matching
breakpoints and re-inserts one at the first match's location with the same
condition / hitCondition / logMessage and the new enabled flag, so `getAll()`
afterwards shows, at that (file, line), exactly one record with the new
enabled value (and `verified` equal to it) and the condition fields
preserved. -/
theorem c7_toggle_spec (bps : List Breakpoints.VsBp) (file : String) (line : Nat)
    (en : Bool) :
    (Breakpoints.toggle bps file line en =
        Except.error ("No breakpoint found at " ++ file ++ ":" ++ toString line) ↔
      Breakpoints.sourceMatches bps file line = []) ∧
    (∀ old rest, Breakpoints.sourceMatches bps file line = old :: rest → 1 ≤ line →
      Breakpoints.toggle bps file line en =
        Except.ok ((bps.filter fun b => !(Breakpoints.matchesLoc file line b)) ++
          [Breakpoints.VsBp.source { old with enabled := en }]) ∧
      (Breakpoints.getAll ((bps.filter fun b => !(Breakpoints.matchesLoc file line b)) ++
          [Breakpoints.VsBp.source { old with enabled := en }])).filter
          (fun i => i.file == file && i.line == line) =
        [{ file := file, line := line,
           column := if 0 < old.column then some old.column else none,
           condition := old.condition, hitCondition := old.hitCondition,
           logMessage := old.logMessage, enabled := en, verified := en }]) := by
  constructor
  · cases hm : Breakpoints.sourceMatches bps file line with
    | nil =>
      simp [Breakpoints.toggle, hm]
    | cons old rest =>
      rw [Breakpoints.toggle, hm]
      simp
  · intro old rest hm hline
    obtain ⟨hfs, hl0⟩ := Breakpoints.mem_sourceMatches bps file line old
      (by rw [hm]; exact List.mem_cons_self _ _)
    constructor
    · rw [Breakpoints.toggle, hm]
    · rw [Breakpoints.getAll_append, List.filter_append,
        Breakpoints.getAll_removed_filter]
      have hstep : Breakpoints.getAll [Breakpoints.VsBp.source { old with enabled := en }] =
          [{ file := old.fsPath, line := old.line0 + 1,
             column := if 0 < old.column then some old.column else none,
             condition := old.condition, hitCondition := old.hitCondition,
             logMessage := old.logMessage, enabled := en, verified := en }] := rfl
      rw [hstep]
      have hline1 : old.line0 + 1 = line := by omega
      rw [List.nil_append]
      simp only [List.filter_cons, hfs, hline1, beq_self_eq_true, Bool.and_self,
        if_pos, List.filter_nil]

/-- Witness for C7 at a concrete input: one breakpoint at `/a.py:3` with a
condition; toggling it to disabled succeeds and `getAll` shows the disabled
record with the condition preserved. -/
theorem c7_witness :
    (Breakpoints.sourceMatches
        [Breakpoints.VsBp.source
          { fsPath := "/a.py", line0 := 2, column := 0, condition := some "x>1",
            hitCondition := none, logMessage := none, enabled := true }] "/a.py" 3 =
      [{ fsPath := "/a.py", line0 := 2, column := 0, condition := some "x>1",
         hitCondition := none, logMessage := none, enabled := true }]) ∧
    (1 ≤ 3) ∧
    (Breakpoints.toggle
        [Breakpoints.VsBp.source
          { fsPath := "/a.py", line0 := 2, column := 0, condition := some "x>1",
            hitCondition := none, logMessage := none, enabled := true }] "/a.py" 3 false =
      Except.ok (([Breakpoints.VsBp.source
          { fsPath := "/a.py", line0 := 2, column := 0, condition := some "x>1",
            hitCondition := none, logMessage := none, enabled := true }].filter
            fun b => !(Breakpoints.matchesLoc "/a.py" 3 b)) ++
        [Breakpoints.VsBp.source
          { fsPath := "/a.py", line0 := 2, column := 0, condition := some "x>1",
            hitCondition := none, logMessage := none, enabled := false }]) ∧
      (Breakpoints.getAll (([Breakpoints.VsBp.source
          { fsPath := "/a.py", line0 := 2, column := 0, condition := some "x>1",
            hitCondition := none, logMessage := none, enabled := true }].filter
            fun b => !(Breakpoints.matchesLoc "/a.py" 3 b)) ++
        [Breakpoints.VsBp.source
          { fsPath := "/a.py", line0 := 2, column := 0, condition := some "x>1",
            hitCondition := none, logMessage := none, enabled := false }])).filter
          (fun i => i.file == "/a.py" && i.line == 3) =
        [{ file := "/a.py", line := 3, column := if 0 < (0 : Nat) then some 0 else none,
           condition := some "x>1", hitCondition := none, logMessage := none,
           enabled := false, verified := false }]) :=
  ⟨by decide, by decide,
    (c7_toggle_spec
      [Breakpoints.VsBp.source
        { fsPath := "/a.py", line0 := 2, column := 0, condition := some "x>1",
          hitCondition := none, logMessage := none, enabled := true }] "/a.py" 3 false).2
      { fsPath := "/a.py", line0 := 2, column := 0, condition := some "x>1",
        hitCondition := none, logMessage := none, enabled := true } [] (by decide) (by decide)⟩

/-- C4 counterexample: the `set_breakpoint` handler does NOT convert a thrown
error into a structured failure result — its `catch` block rethrows, so the
error propagates out of the handler. -/
theorem c4_counterexample :
    Mcp.setBreakpointHandler (Except.error "boom") "/a.py" = Except.error "boom" := rfl

/-- C4 (amended): the handlers registered in `session.ts` and `inspection.ts`
catch errors from their bodies and return `createErrorResult` (a structured
failure with `isError = true` and the message as text), but the handlers in
`breakpoint.ts` (here `set_breakpoint`) log and rethrow the error instead of
converting it. -/
theorem c4_amended_error_policy :
    (∀ e, Mcp.launchDebugHandler (Except.error e) = Except.ok (Mcp.createErrorResult e)) ∧
    (∀ e, Mcp.stopDebugHandler (Except.error e) = Except.ok (Mcp.createErrorResult e)) ∧
    (∀ e, Mcp.evaluateExpressionHandler (Except.error e) =
      Except.ok (Mcp.createErrorResult e)) ∧
    (∀ e, (Mcp.createErrorResult e).isError = true ∧ (Mcp.createErrorResult e).text = e) ∧
    (∀ e file, Mcp.setBreakpointHandler (Except.error e) file = Except.error e) :=
  ⟨fun _ => rfl, fun _ => rfl, fun _ => rfl, fun _ => ⟨rfl, rfl⟩, fun _ _ => rfl⟩

/-- C5: `launchChild` with a parent id that is not tracked in the registry
fails with the `ParentNotFound` error (`Parent session ... not found`), makes
no engine call (`startDebugging` is never invoked), and leaves the registry
unchanged. -/
theorem c5_launchChild_unknown_parent (r : Sessions.Registry) (pid : String)
    (events : List Sessions.StartEvent) (engineAccepts : Bool)
    (h : Sessions.lookup r pid = none) :
    Sessions.launchChild r pid events engineAccepts =
      (Except.error ("Parent session " ++ pid ++ " not found"), [], r) := by
  rw [Sessions.launchChild, h]

/-- Witness for C5 at a concrete input: the empty registry does not track
`p1`. -/
theorem c5_witness :
    (Sessions.lookup [] "p1" = none) ∧
    Sessions.launchChild [] "p1" [] true =
      (Except.error ("Parent session " ++ "p1" ++ " not found"), [], []) :=
  ⟨rfl, c5_launchChild_unknown_parent [] "p1" [] true rfl⟩

/-- C6: `launch(config)` fails with the `LaunchRejected` error (`Failed to
start debug session`) when the engine's start call synchronously declines;
when the engine accepts, it fails with the `LaunchTimeout` error (`Timeout
waiting for debug session`) when no session-start event arrives within the
10000 ms bound, and otherwise returns the id reported by the next
session-start event. -/
theorem c6_launch_outcomes (events : List Sessions.StartEvent) (engineAccepts : Bool) :
    (engineAccepts = false →
      Sessions.launch events engineAccepts =
        Except.error "Failed to start debug session") ∧
    (engineAccepts = true → events = [] →
      Sessions.launch events engineAccepts =
        Except.error "Timeout waiting for debug session") ∧
    (engineAccepts = true → ∀ e rest, events = e :: rest →
      Sessions.timeoutMs ≤ e.timeMs →
      Sessions.launch events engineAccepts =
        Except.error "Timeout waiting for debug session") ∧
    (engineAccepts = true → ∀ e rest, events = e :: rest →
      e.timeMs < Sessions.timeoutMs →
      Sessions.launch events engineAccepts = Except.ok e.sid) := by
  refine ⟨fun ha => ?_, fun ha he => ?_, fun ha e rest he hb => ?_, fun ha e rest he hb => ?_⟩
  · rw [Sessions.launch, ha]; rfl
  · rw [Sessions.launch, ha, he]; rfl
  · rw [Sessions.launch, ha, he]
    simp [Sessions.waitForSession, Nat.not_lt.mpr hb]
  · rw [Sessions.launch, ha, he]
    simp [Sessions.waitForSession, hb]

/-- Witness for C6 at a concrete input: the engine accepts and the start
event for session `s1` arrives 5 ms after subscription, within the bound. -/
theorem c6_witness :
    (true = true) ∧ (({ sid := "s1", timeMs := 5 } : Sessions.StartEvent).timeMs <
      Sessions.timeoutMs) ∧
    Sessions.launch [{ sid := "s1", timeMs := 5 }] true = Except.ok "s1" :=
  ⟨rfl, by decide,
    (c6_launch_outcomes [{ sid := "s1", timeMs := 5 }] true).2.2.2 rfl
      { sid := "s1", timeMs := 5 } [] rfl (by decide)⟩

/-- C8 counterexample: in `envTwoThreads` a thread (id 2) IS paused with a
stack frame, yet `evaluateExpression` with no explicit frame fails — the
fallback always queries only the FIRST reported thread (id 1, which has no
frames) and throws instead of evaluating in the first thread's top frame. -/
theorem c8_counterexample :
    Inspection.envTwoThreads.threads =
      Except.ok [{ id := 1, name := "T1" }, { id := 2, name := "T2" }] ∧
    Inspection.envTwoThreads.stack1 2 =
      Except.ok
        [{ id := 7, name := "main", source := some "/a.py", line := 3, column := 1 }] ∧
    Inspection.evaluateExpression Inspection.envTwoThreads "x" none =
      Except.error "No stack frames found. Is the debugger paused?" :=
  ⟨rfl, rfl, rfl⟩

namespace Inspection

theorem getCurrentFrameId_cons (env : DebugEnv) (t : ThreadInfo)
    (ts : List ThreadInfo) (h : env.threads = Except.ok (t :: ts)) :
    getCurrentFrameId env =
      match env.stack1 t.id with
      | .error m => .error m
      | .ok [] => .error "No stack frames found. Is the debugger paused?"
      | .ok (f :: _) => .ok f.id := by
  rw [getCurrentFrameId, h]

end Inspection

/-- C8 (amended): with neither an explicit frame nor thread, the fallback
resolves against the session's FIRST reported thread only: if that thread has
stack frames the expression is evaluated in its topmost frame; if the first
thread has no frames the call fails with the descriptive error `No stack
frames found. Is the debugger paused?` (even when another thread is paused);
with no threads at all it fails with `No threads found in debug session`. -/
theorem c8_amended_first_thread (env : Inspection.DebugEnv) (expression : String) :
    (env.threads = Except.ok [] →
      Inspection.evaluateExpression env expression none =
        Except.error "No threads found in debug session") ∧
    (∀ t ts, env.threads = Except.ok (t :: ts) →
      (env.stack1 t.id = Except.ok [] →
        Inspection.evaluateExpression env expression none =
          Except.error "No stack frames found. Is the debugger paused?") ∧
      (∀ f fs, env.stack1 t.id = Except.ok (f :: fs) →
        Inspection.evaluateExpression env expression none =
          env.evalReq expression f.id)) := by
  constructor
  · intro h
    rw [Inspection.evaluateExpression, Inspection.getCurrentFrameId, h]
  · intro t ts h
    constructor
    · intro hs
      rw [Inspection.evaluateExpression,
        Inspection.getCurrentFrameId_cons env t ts h, hs]
    · intro f fs hs
      rw [Inspection.evaluateExpression,
        Inspection.getCurrentFrameId_cons env t ts h, hs]

/-- Witness for the amended C8 at a concrete input: in `envTwoThreads` the
first thread reports no frames, so the call fails with the descriptive
error. -/
theorem c8_witness :
    (Inspection.envTwoThreads.threads =
      Except.ok [{ id := 1, name := "T1" }, { id := 2, name := "T2" }]) ∧
    (Inspection.envTwoThreads.stack1 1 = Except.ok []) ∧
    Inspection.evaluateExpression Inspection.envTwoThreads "x" none =
      Except.error "No stack frames found. Is the debugger paused?" :=
  ⟨rfl, rfl,
    ((c8_amended_first_thread Inspection.envTwoThreads "x").2
      { id := 1, name := "T1" } [{ id := 2, name := "T2" }] rfl).1 rfl⟩

namespace Inspection

theorem length_filterMap_countP {α β : Type} (f : α → Option β) (l : List α) :
    (l.filterMap f).length = l.countP (fun a => (f a).isSome) := by
  induction l with
  | nil => rfl
  | cons a t ih =>
    cases hf : f a with
    | none => simp [List.filterMap_cons, hf, List.countP_cons, ih]
    | some b => simp [List.filterMap_cons, hf, List.countP_cons, ih]

end Inspection

/-- C9: `getCurrentLocation(session)` attempts a 1-level stack query per
reported thread; a thread whose query errors or that has no frames is
skipped without failing the call, so the result has exactly one entry per
thread with a sourced top frame; in the concrete scenario (thread T1 paused
on a sourced frame, thread T2 with no frames) the `get_current_location`
handler returns exactly T1's location as success, not an error. -/
theorem c9_locations_skip :
    (∀ env ts, env.threads = Except.ok ts →
      (Inspection.getCurrentLocation env).length =
        ts.countP (fun t => (Inspection.locationForThread env t).isSome) ∧
      (∀ t, t ∈ ts → ∀ msg, env.stack1 t.id = Except.error msg →
        Inspection.locationForThread env t = none) ∧
      (∀ t, t ∈ ts → env.stack1 t.id = Except.ok [] →
        Inspection.locationForThread env t = none)) ∧
    Inspection.getCurrentLocationHandler Inspection.envOnePaused =
      Except.ok
        [{ threadId := 1, threadName := "T1", file := "/a.py", line := 5, column := 1 }] := by
  constructor
  · intro env ts h
    refine ⟨?_, ?_, ?_⟩
    · rw [Inspection.getCurrentLocation, h]
      exact Inspection.length_filterMap_countP _ _
    · intro t _ msg hs
      rw [Inspection.locationForThread, hs]
    · intro t _ hs
      rw [Inspection.locationForThread, hs]
  · rfl

/-- Witness for C9 at a concrete input: the length characterization applied
to `envOnePaused`. -/
theorem c9_witness :
    (Inspection.envOnePaused.threads =
      Except.ok [{ id := 1, name := "T1" }, { id := 2, name := "T2" }]) ∧
    (Inspection.getCurrentLocation Inspection.envOnePaused).length =
      [({ id := 1, name := "T1" } : Inspection.ThreadInfo),
       { id := 2, name := "T2" }].countP
        (fun t => (Inspection.locationForThread Inspection.envOnePaused t).isSome) :=
  ⟨rfl,
    (c9_locations_skip.1 Inspection.envOnePaused
      [{ id := 1, name := "T1" }, { id := 2, name := "T2" }] rfl).1⟩

namespace MutexModel

theorem bodiesOf_append (a b : List Ev) :
    bodiesOf (a ++ b) = bodiesOf a ++ bodiesOf b := by
  simp [bodiesOf, List.filterMap_append]

theorem acquiresOf_append (a b : List Ev) :
    acquiresOf (a ++ b) = acquiresOf a ++ acquiresOf b := by
  simp [acquiresOf, List.filterMap_append]

theorem bodiesOf_map_range (i n : Nat) :
    bodiesOf ((List.range n).map (Ev.body i)) = List.replicate n i := by
  induction n with
  | zero => rfl
  | succ n ih =>
    rw [List.range_succ, List.map_append, bodiesOf_append, ih,
      List.replicate_succ']
    rfl

theorem acquiresOf_map_body (i : Nat) (l : List Nat) :
    acquiresOf (l.map (Ev.body i)) = [] := by
  induction l with
  | nil => rfl
  | cons k t ih => simpa [acquiresOf, List.filterMap_cons] using ih

theorem bodiesOf_runJob (i : Nat) (j : Job) :
    bodiesOf (runJob i j) = List.replicate j.steps i := by
  rw [runJob]
  have h1 : bodiesOf ([Ev.release i] ++ (if j.throws then [Ev.threw i] else [])) = [] := by
    cases hj : j.throws <;> simp [bodiesOf]
  calc bodiesOf (Ev.acquire i :: ((List.range j.steps).map (Ev.body i) ++
        ([Ev.release i] ++ (if j.throws then [Ev.threw i] else []))))
      = bodiesOf ((List.range j.steps).map (Ev.body i) ++
        ([Ev.release i] ++ (if j.throws then [Ev.threw i] else []))) := by
        simp [bodiesOf, List.filterMap_cons]
    _ = bodiesOf ((List.range j.steps).map (Ev.body i)) ++
        bodiesOf ([Ev.release i] ++ (if j.throws then [Ev.threw i] else [])) :=
        bodiesOf_append _ _
    _ = List.replicate j.steps i := by rw [h1, bodiesOf_map_range, List.append_nil]

theorem acquiresOf_runJob (i : Nat) (j : Job) :
    acquiresOf (runJob i j) = [i] := by
  rw [runJob]
  have h2 : acquiresOf ([Ev.release i] ++ (if j.throws then [Ev.threw i] else [])) = [] := by
    cases hj : j.throws <;> simp [acquiresOf]
  calc acquiresOf (Ev.acquire i :: ((List.range j.steps).map (Ev.body i) ++
        ([Ev.release i] ++ (if j.throws then [Ev.threw i] else []))))
      = i :: acquiresOf ((List.range j.steps).map (Ev.body i) ++
        ([Ev.release i] ++ (if j.throws then [Ev.threw i] else []))) := by
        simp [acquiresOf, List.filterMap_cons]
    _ = [i] := by rw [acquiresOf_append, acquiresOf_map_body, h2]; rfl

theorem le_of_mem_bodiesOf_scheduleFrom :
    ∀ (jobs : List Job) (n x : Nat), x ∈ bodiesOf (scheduleFrom n jobs) → n ≤ x := by
  intro jobs
  induction jobs with
  | nil => intro n x hx; simp [scheduleFrom, bodiesOf] at hx
  | cons j rest ih =>
    intro n x hx
    rw [scheduleFrom, bodiesOf_append, List.mem_append] at hx
    cases hx with
    | inl h =>
      rw [bodiesOf_runJob] at h
      have := List.eq_of_mem_replicate h
      omega
    | inr h =>
      have := ih (n + 1) x h
      omega

theorem replicate_pairwise_le (n a : Nat) :
    (List.replicate n a).Pairwise (· ≤ ·) := by
  induction n with
  | zero => exact List.Pairwise.nil
  | succ n ih =>
    rw [List.replicate_succ]
    exact List.Pairwise.cons
      (fun b hb => by rw [List.eq_of_mem_replicate hb]) ih

theorem pairwise_bodiesOf_scheduleFrom :
    ∀ (jobs : List Job) (n : Nat), (bodiesOf (scheduleFrom n jobs)).Pairwise (· ≤ ·) := by
  intro jobs
  induction jobs with
  | nil => intro n; simp [scheduleFrom, bodiesOf]
  | cons j rest ih =>
    intro n
    rw [scheduleFrom, bodiesOf_append, List.pairwise_append]
    refine ⟨by rw [bodiesOf_runJob]; exact replicate_pairwise_le _ _, ih (n + 1), ?_⟩
    intro x hx y hy
    rw [bodiesOf_runJob] at hx
    have hxn := List.eq_of_mem_replicate hx
    have hyn := le_of_mem_bodiesOf_scheduleFrom rest (n + 1) y hy
    omega

theorem acquiresOf_scheduleFrom :
    ∀ (jobs : List Job) (n : Nat),
      acquiresOf (scheduleFrom n jobs) = List.range' n jobs.length := by
  intro jobs
  induction jobs with
  | nil => intro n; rfl
  | cons j rest ih =>
    intro n
    rw [scheduleFrom, acquiresOf_append, acquiresOf_runJob, ih, List.length_cons,
      List.range'_succ]
    rfl

theorem release_mem_runJob (i : Nat) (j : Job) : Ev.release i ∈ runJob i j := by
  cases hj : j.throws <;> simp [runJob, hj]

theorem acquire_mem_runJob (i : Nat) (j : Job) : Ev.acquire i ∈ runJob i j := by
  cases hj : j.throws <;> simp [runJob, hj]

theorem release_threw_sublist_runJob (i : Nat) (j : Job) (hj : j.throws = true) :
    [Ev.release i, Ev.threw i].Sublist (runJob i j) := by
  rw [runJob, hj]
  refine List.Sublist.cons _ ?_
  have h2 : ([Ev.release i] ++ (if (true : Bool) then [Ev.threw i] else [])) =
      [Ev.release i, Ev.threw i] := rfl
  rw [h2]
  exact List.sublist_append_right _ _

theorem release_threw_sublist :
    ∀ (jobs : List Job) (n i : Nat) (j : Job), jobs[i]? = some j → j.throws = true →
      [Ev.release (n + i), Ev.threw (n + i)].Sublist (scheduleFrom n jobs) := by
  intro jobs
  induction jobs with
  | nil => intro n i j h1 _; simp at h1
  | cons jh rest ih =>
    intro n i j h1 hthrows
    cases i with
    | zero =>
      rw [List.getElem?_cons_zero] at h1
      cases h1
      rw [scheduleFrom]
      exact ((release_threw_sublist_runJob n jh hthrows).trans
        (List.sublist_append_left _ _))
    | succ i2 =>
      rw [List.getElem?_cons_succ] at h1
      have := ih (n + 1) i2 j h1 hthrows
      rw [scheduleFrom]
      have harith : n + 1 + i2 = n + (i2 + 1) := by omega
      rw [harith] at this
      exact this.trans (List.sublist_append_right _ _)

theorem release_acquire_sublist :
    ∀ (jobs : List Job) (n i : Nat) (j j2 : Job),
      jobs[i]? = some j → jobs[i + 1]? = some j2 →
      [Ev.release (n + i), Ev.acquire (n + i + 1)].Sublist (scheduleFrom n jobs) := by
  intro jobs
  induction jobs with
  | nil => intro n i j j2 h1 _; simp at h1
  | cons jh rest ih =>
    intro n i j j2 h1 h2
    cases i with
    | zero =>
      rw [List.getElem?_cons_zero] at h1
      cases h1
      rw [List.getElem?_cons_succ] at h2
      cases rest with
      | nil => simp at h2
      | cons jr rest2 =>
        rw [List.getElem?_cons_zero] at h2
        cases h2
        rw [scheduleFrom]
        have hr : [Ev.release (n + 0)].Sublist (runJob n jh) := by
          rw [Nat.add_zero]
          exact List.singleton_sublist.mpr (release_mem_runJob n jh)
        have ha : [Ev.acquire (n + 0 + 1)].Sublist (scheduleFrom (n + 1) (j2 :: rest2)) := by
          rw [Nat.add_zero, scheduleFrom]
          exact (List.singleton_sublist.mpr (acquire_mem_runJob (n + 1) j2)).trans
            (List.sublist_append_left _ _)
        exact List.Sublist.append hr ha
    | succ i2 =>
      rw [List.getElem?_cons_succ] at h1
      rw [List.getElem?_cons_succ] at h2
      have := ih (n + 1) i2 j j2 h1 h2
      rw [scheduleFrom]
      have harith1 : n + 1 + i2 = n + (i2 + 1) := by omega
      rw [harith1] at this
      exact this.trans (List.sublist_append_right _ _)

end MutexModel

/-- C3 (spec-modelled serializer): in the serialized schedule of any queue of
tool invocations, (1) the origin list of body-step events is pairwise
monotone, so the body steps of two distinct invocations never interleave
(an interleaving `i .. j .. i` with `i ≠ j` would force `i ≤ j` and `j ≤ i`)
and bodies run in arrival order; (2) lock acquisitions happen exactly once
per caller, in FIFO arrival order; (3) a throwing invocation releases the
lock before its error propagates; and (4) the next queued caller still
acquires the serializer after any invocation, including a throwing one. -/
theorem c3_serializer_fifo_exclusive (jobs : List MutexModel.Job) :
    (MutexModel.bodiesOf (MutexModel.schedule jobs)).Pairwise (· ≤ ·) ∧
    MutexModel.acquiresOf (MutexModel.schedule jobs) = List.range jobs.length ∧
    (∀ i j, jobs[i]? = some j → j.throws = true →
      [MutexModel.Ev.release i, MutexModel.Ev.threw i].Sublist
        (MutexModel.schedule jobs)) ∧
    (∀ i j j2, jobs[i]? = some j → jobs[i + 1]? = some j2 →
      [MutexModel.Ev.release i, MutexModel.Ev.acquire (i + 1)].Sublist
        (MutexModel.schedule jobs)) := by
  refine ⟨MutexModel.pairwise_bodiesOf_scheduleFrom jobs 0, ?_, ?_, ?_⟩
  · rw [MutexModel.schedule, MutexModel.acquiresOf_scheduleFrom jobs 0,
      List.range_eq_range']
  · intro i j h1 h2
    have := MutexModel.release_threw_sublist jobs 0 i j h1 h2
    rw [Nat.zero_add] at this
    exact this
  · intro i j j2 h1 h2
    have := MutexModel.release_acquire_sublist jobs 0 i j j2 h1 h2
    rw [Nat.zero_add] at this
    exact this

/-- Witness for C3 at a concrete input: two queued invocations, the first of
which throws after one body step; the second still acquires the lock, and
within the first the release precedes the error propagation. -/
theorem c3_witness :
    ([({ steps := 1, throws := true } : MutexModel.Job),
       { steps := 1, throws := false }][0]? = some { steps := 1, throws := true }) ∧
    ([({ steps := 1, throws := true } : MutexModel.Job),
       { steps := 1, throws := false }][0 + 1]? = some { steps := 1, throws := false }) ∧
    [MutexModel.Ev.release 0, MutexModel.Ev.threw 0].Sublist
      (MutexModel.schedule [{ steps := 1, throws := true }, { steps := 1, throws := false }]) ∧
    [MutexModel.Ev.release 0, MutexModel.Ev.acquire (0 + 1)].Sublist
      (MutexModel.schedule [{ steps := 1, throws := true }, { steps := 1, throws := false }]) :=
  ⟨rfl, rfl,
    (c3_serializer_fifo_exclusive
      [{ steps := 1, throws := true }, { steps := 1, throws := false }]).2.2.1 0
      { steps := 1, throws := true } rfl rfl,
    (c3_serializer_fifo_exclusive
      [{ steps := 1, throws := true }, { steps := 1, throws := false }]).2.2.2 0
      { steps := 1, throws := true } { steps := 1, throws := false } rfl rfl⟩


namespace Sessions

theorem lookup_cons (e : String × SessionNode) (r : Registry) (x : String) :
    lookup (e :: r) x = if e.1 == x then some e.2 else lookup r x := by
  cases he : e.1 == x <;> simp [lookup, List.find?, he]

theorem keys_cons (e : String × SessionNode) (r : Registry) :
    keys (e :: r) = e.1 :: keys r := rfl

theorem keys_append (r1 r2 : Registry) : keys (r1 ++ r2) = keys r1 ++ keys r2 := by
  simp [keys]

theorem keys_length (r : Registry) : (keys r).length = r.length := by
  simp [keys]

theorem lookup_isSome_iff (r : Registry) (x : String) :
    (lookup r x).isSome ↔ x ∈ keys r := by
  induction r with
  | nil => simp [lookup, keys]
  | cons e t ih =>
    rcases e with ⟨a, b⟩
    rw [lookup_cons, keys_cons]
    by_cases hax : a = x
    · simp [hax]
    · rw [if_neg (by simpa using hax)]
      rw [ih, List.mem_cons]
      constructor
      · intro h; exact Or.inr h
      · rintro (h | h)
        · exact absurd h.symm hax
        · exact h

theorem lookup_eq_none_iff (r : Registry) (x : String) :
    lookup r x = none ↔ x ∉ keys r := by
  rw [← lookup_isSome_iff, Option.isSome_iff_exists]
  constructor
  · intro h hc; rcases hc with ⟨v, hv⟩; rw [h] at hv; cases hv
  · intro h
    cases hl : lookup r x
    · rfl
    · exact absurd ⟨_, hl⟩ h

theorem hasId_iff (r : Registry) (x : String) : hasId r x = true ↔ x ∈ keys r := by
  rw [hasId, lookup_isSome_iff]

theorem lookup_mem (r : Registry) (x : String) (nd : SessionNode)
    (h : lookup r x = some nd) : (x, nd) ∈ r := by
  induction r with
  | nil => simp [lookup] at h
  | cons e t ih =>
    rcases e with ⟨a, b⟩
    rw [lookup_cons] at h
    by_cases hax : a = x
    · rw [if_pos (by simpa using hax)] at h
      cases h
      rw [hax]
      exact List.mem_cons_self _ _
    · rw [if_neg (by simpa using hax)] at h
      exact List.mem_cons_of_mem _ (ih h)

theorem mem_keys_of_mem {r : Registry} {x : String} {nd : SessionNode}
    (h : (x, nd) ∈ r) : x ∈ keys r :=
  List.mem_map_of_mem Prod.fst h

theorem mem_lookup_of_nodup {r : Registry} (hn : (keys r).Nodup) {x : String}
    {nd : SessionNode} (hm : (x, nd) ∈ r) : lookup r x = some nd := by
  induction r with
  | nil => cases hm
  | cons e t ih =>
    rcases e with ⟨a, b⟩
    rw [keys_cons, List.nodup_cons] at hn
    rw [lookup_cons]
    rcases List.mem_cons.mp hm with h1 | h2
    · cases h1
      simp
    · have hx : x ∈ keys t := mem_keys_of_mem h2
      have hne : a ≠ x := by
        intro hc; rw [hc] at hn; exact hn.1 hx
      rw [if_neg (by simpa using hne)]
      exact ih hn.2 h2

theorem lookup_append_left (r1 r2 : Registry) (x : String) (v : SessionNode)
    (h : lookup r1 x = some v) : lookup (r1 ++ r2) x = some v := by
  induction r1 with
  | nil => simp [lookup] at h
  | cons e t ih =>
    rcases e with ⟨a, b⟩
    rw [List.cons_append, lookup_cons]
    rw [lookup_cons] at h
    by_cases hax : a = x
    · rw [if_pos (by simpa using hax)] at h ⊢
      exact h
    · rw [if_neg (by simpa using hax)] at h ⊢
      exact ih h

theorem lookup_append_right (r1 r2 : Registry) (x : String)
    (h : x ∉ keys r1) : lookup (r1 ++ r2) x = lookup r2 x := by
  induction r1 with
  | nil => rfl
  | cons e t ih =>
    rcases e with ⟨a, b⟩
    rw [keys_cons, List.mem_cons] at h
    push_neg at h
    rw [List.cons_append, lookup_cons,
      if_neg (by simpa using fun hc => h.1 hc.symm)]
    exact ih h.2

theorem keys_mapAt (r : Registry) (pid : String) (f : SessionNode → SessionNode) :
    keys (mapAt r pid f) = keys r := by
  simp only [keys, mapAt, List.map_map]
  congr 1
  funext e
  by_cases hap : e.1 = pid <;> simp [Function.comp, hap]

theorem length_mapAt (r : Registry) (pid : String) (f : SessionNode → SessionNode) :
    (mapAt r pid f).length = r.length := by
  simp [mapAt]

theorem lookup_mapAt (r : Registry) (pid x : String) (f : SessionNode → SessionNode) :
    lookup (mapAt r pid f) x =
      if x == pid then (lookup r x).map f else lookup r x := by
  induction r with
  | nil => by_cases hx : x = pid <;> simp [mapAt, lookup, hx]
  | cons e t ih =>
    rcases e with ⟨a, b⟩
    by_cases hap : a = pid
    · simp only [mapAt, List.map_cons,
        if_pos (by simpa using hap : ((a, b).1 == pid) = true)]
      by_cases hax : a = x
      · have hxp : x = pid := by rw [← hax, hap]
        rw [lookup_cons, lookup_cons,
          if_pos (by simpa using hax : ((a, f b).1 == x) = true),
          if_pos (by simpa using hax : ((a, b).1 == x) = true),
          if_pos (by simpa using hxp : (x == pid) = true)]
        rfl
      · rw [lookup_cons, lookup_cons,
          if_neg (by simpa using hax : ¬((a, f b).1 == x) = true),
          if_neg (by simpa using hax : ¬((a, b).1 == x) = true)]
        simpa [mapAt] using ih
    · simp only [mapAt, List.map_cons,
        if_neg (by simpa using hap : ¬((a, b).1 == pid) = true)]
      by_cases hax : a = x
      · have hxp : ¬x = pid := by rw [← hax]; exact hap
        rw [lookup_cons, lookup_cons,
          if_pos (by simpa using hax : ((a, b).1 == x) = true),
          if_pos (by simpa using hax : ((a, b).1 == x) = true),
          if_neg (by simpa using hxp : ¬(x == pid) = true)]
      · rw [lookup_cons, lookup_cons,
          if_neg (by simpa using hax : ¬((a, b).1 == x) = true),
          if_neg (by simpa using hax : ¬((a, b).1 == x) = true)]
        simpa [mapAt] using ih

theorem mem_mapAt (r : Registry) (pid : String) (f : SessionNode → SessionNode)
    (q : String) (m : SessionNode) (h : (q, m) ∈ mapAt r pid f) :
    ∃ m0, (q, m0) ∈ r ∧ ((q = pid ∧ m = f m0) ∨ (q ≠ pid ∧ m = m0)) := by
  rw [mapAt] at h
  obtain ⟨e, he, heq⟩ := List.mem_map.mp h
  rcases e with ⟨a, b⟩
  by_cases hap : a = pid
  · rw [if_pos (by simpa using hap : ((a, b).1 == pid) = true)] at heq
    have hq : a = q := by
      have := congrArg Prod.fst heq
      simpa using this
    have hm : f b = m := by
      have := congrArg Prod.snd heq
      simpa using this
    refine ⟨b, ?_, Or.inl ⟨by rw [← hq, hap], hm.symm⟩⟩
    rw [← hq]
    exact he
  · rw [if_neg (by simpa using hap : ¬((a, b).1 == pid) = true)] at heq
    have hq : a = q := by
      have := congrArg Prod.fst heq
      simpa using this
    have hm : b = m := by
      have := congrArg Prod.snd heq
      simpa using this
    refine ⟨m, ?_, Or.inr ⟨by rw [← hq]; exact hap, rfl⟩⟩
    rw [← hq, ← hm]
    exact he

end Sessions

namespace Sessions

theorem keys_filterKey (r : Registry) (sid : String) :
    keys (r.filter fun e => e.1 != sid) = (keys r).filter (fun k => k != sid) := by
  induction r with
  | nil => rfl
  | cons e t ih =>
    rcases e with ⟨a, b⟩
    rw [keys_cons, List.filter_cons, List.filter_cons]
    by_cases has : a = sid
    · rw [if_neg (by simpa using has : ¬((a, b).1 != sid) = true),
        if_neg (by simpa using has : ¬(a != sid) = true)]
      exact ih
    · rw [if_pos (by simpa using has : ((a, b).1 != sid) = true),
        if_pos (by simpa using has : (a != sid) = true), keys_cons, ih]

theorem lookup_filterKey (r : Registry) (sid x : String) :
    lookup (r.filter fun e => e.1 != sid) x =
      if x == sid then none else lookup r x := by
  induction r with
  | nil => by_cases hx : x = sid <;> simp [lookup, hx]
  | cons e t ih =>
    rcases e with ⟨a, b⟩
    rw [List.filter_cons]
    by_cases has : a = sid
    · rw [if_neg (by simpa using has : ¬((a, b).1 != sid) = true), ih, lookup_cons]
      by_cases hx : x = sid
      · rw [if_pos (by simpa using hx : (x == sid) = true),
          if_pos (by simpa using hx : (x == sid) = true)]
      · have hne : a ≠ x := by
          intro hc; rw [← hc] at hx; exact hx has
        rw [if_neg (by simpa using hx : ¬(x == sid) = true),
          if_neg (by simpa using hx : ¬(x == sid) = true),
          if_neg (by simpa using hne : ¬((a, b).1 == x) = true)]
    · rw [if_pos (by simpa using has : ((a, b).1 != sid) = true), lookup_cons, ih,
        lookup_cons]
      by_cases hax : a = x
      · have hxs : ¬x = sid := by rw [← hax]; exact has
        rw [if_pos (by simpa using hax : ((a, b).1 == x) = true),
          if_neg (by simpa using hxs : ¬(x == sid) = true),
          if_pos (by simpa using hax : ((a, b).1 == x) = true)]
      · rw [if_neg (by simpa using hax : ¬((a, b).1 == x) = true)]
        by_cases hx : x = sid
        · rw [if_pos (by simpa using hx : (x == sid) = true),
            if_pos (by simpa using hx : (x == sid) = true)]
        · rw [if_neg (by simpa using hx : ¬(x == sid) = true),
            if_neg (by simpa using hx : ¬(x == sid) = true),
            if_neg (by simpa using hax : ¬((a, b).1 == x) = true)]

theorem mem_filterKey (r : Registry) (sid q : String) (m : SessionNode) :
    (q, m) ∈ (r.filter fun e => e.1 != sid) ↔ (q, m) ∈ r ∧ q ≠ sid := by
  rw [List.mem_filter]
  constructor
  · intro h; exact ⟨h.1, by simpa using h.2⟩
  · intro h; exact ⟨h.1, by simpa using h.2⟩

theorem length_filterKey_of_mem (r : Registry) (sid : String)
    (hn : (keys r).Nodup) (hm : sid ∈ keys r) :
    (r.filter fun e => e.1 != sid).length + 1 = r.length := by
  induction r with
  | nil => cases hm
  | cons e t ih =>
    rcases e with ⟨a, b⟩
    rw [keys_cons, List.nodup_cons] at hn
    rw [keys_cons, List.mem_cons] at hm
    rw [List.filter_cons]
    rcases hm with h1 | h2
    · rw [if_neg (by simpa using h1.symm :  ¬((a, b).1 != sid) = true)]
      have hself : t.filter (fun e => e.1 != sid) = t := by
        apply List.filter_eq_self.mpr
        intro p hp
        have hpk : p.1 ∈ keys t := mem_keys_of_mem hp
        have : p.1 ≠ sid := by
          intro hc
          rw [hc, h1] at hpk
          exact hn.1 hpk
        simpa using this
      rw [hself, List.length_cons]
    · have hne : a ≠ sid := by
        intro hc; rw [← hc] at h2; exact hn.1 h2
      rw [if_pos (by simpa using hne : ((a, b).1 != sid) = true), List.length_cons,
        List.length_cons, ← ih hn.2 h2]

theorem pair_sublist_filter {a b : String} {l : List String} (s : String)
    (h : [a, b].Sublist l) (ha : a ≠ s) (hb : b ≠ s) :
    [a, b].Sublist (l.filter (fun k => k != s)) := by
  have h2 := h.filter (fun k => k != s)
  have h3 : [a, b].filter (fun k => k != s) = [a, b] := by
    simp [List.filter_cons, ha, hb]
  rw [h3] at h2
  exact h2

theorem idxOf_lt_length (l : List String) (a : String) (h : a ∈ l) :
    idxOf l a < l.length := by
  induction l with
  | nil => cases h
  | cons k t ih =>
    rw [idxOf]
    by_cases hk : k = a
    · rw [if_pos (by simpa using hk : (k == a) = true)]
      simp
    · rw [if_neg (by simpa using hk : ¬(k == a) = true), List.length_cons]
      have ha : a ∈ t := by
        rcases List.mem_cons.mp h with h1 | h1
        · exact absurd h1.symm hk
        · exact h1
      have := ih ha
      omega

theorem idxOf_lt_of_pair_sublist (l : List String) (hn : l.Nodup) (a b : String)
    (h : [a, b].Sublist l) : idxOf l a < idxOf l b := by
  induction l with
  | nil => cases (List.sublist_nil.mp h)
  | cons k t ih =>
    rw [List.nodup_cons] at hn
    cases h with
    | cons _ h2 =>
      have ham : a ∈ t := h2.subset (List.mem_cons_self _ _)
      have hbm : b ∈ t := h2.subset (List.mem_cons_of_mem _ (List.mem_cons_self _ _))
      have hka : k ≠ a := by intro hc; rw [hc] at hn; exact hn.1 ham
      have hkb : k ≠ b := by intro hc; rw [hc] at hn; exact hn.1 hbm
      rw [idxOf, idxOf, if_neg (by simpa using hka), if_neg (by simpa using hkb)]
      have := ih hn.2 h2
      omega
    | cons₂ _ h2 =>
      have hbm : b ∈ t := List.singleton_sublist.mp h2
      have hkb : a ≠ b := by intro hc; rw [hc] at hn; exact hn.1 hbm
      rw [idxOf, idxOf, if_pos (by simp), if_neg (by simpa using hkb)]
      omega

theorem seqOption_isSome {α : Type} (l : List (Option α))
    (h : ∀ o ∈ l, o.isSome) : (seqOption l).isSome := by
  induction l with
  | nil => rfl
  | cons o t ih =>
    have ho := h o (List.mem_cons_self _ _)
    obtain ⟨a, ha⟩ := Option.isSome_iff_exists.mp ho
    rw [ha, seqOption]
    have ht := ih (fun o2 ho2 => h o2 (List.mem_cons_of_mem _ ho2))
    obtain ⟨ts, hts⟩ := Option.isSome_iff_exists.mp ht
    rw [hts]
    rfl

theorem seqOption_mem {α : Type} :
    ∀ (l : List (Option α)) (ts : List α), seqOption l = some ts →
      ∀ t ∈ ts, some t ∈ l := by
  intro l
  induction l with
  | nil =>
    intro ts h t ht
    rw [seqOption] at h
    cases h
    cases ht
  | cons o rest ih =>
    intro ts h t ht
    cases o with
    | none => rw [seqOption] at h; cases h
    | some a =>
      rw [seqOption] at h
      cases hrest : seqOption rest with
      | none => rw [hrest] at h; cases h
      | some ts2 =>
        rw [hrest] at h
        cases h
        rcases List.mem_cons.mp ht with h1 | h1
        · rw [h1]; exact List.mem_cons_self _ _
        · exact List.mem_cons_of_mem _ (ih ts2 hrest t h1)

end Sessions

namespace Sessions

theorem containsIdList_iff (x : String) (ts : List SessionTreeNode) :
    containsId.containsIdList x ts = true ↔ ∃ t ∈ ts, containsId x t = true := by
  induction ts with
  | nil => simp [containsId.containsIdList]
  | cons t rest ih =>
    rw [containsId.containsIdList, Bool.or_eq_true, ih]
    constructor
    · rintro (h | ⟨t2, ht2, h2⟩)
      · exact ⟨t, List.mem_cons_self _ _, h⟩
      · exact ⟨t2, List.mem_cons_of_mem _ ht2, h2⟩
    · rintro ⟨t2, ht2, h2⟩
      rcases List.mem_cons.mp ht2 with h3 | h3
      · left; rw [← h3]; exact h2
      · right; exact ⟨t2, h3, h2⟩

theorem buildTreeNode_succ (r : Registry) (fuel : Nat) (sid : String)
    (nd : SessionNode) (hl : lookup r sid = some nd) :
    buildTreeNode r (fuel + 1) sid =
      match seqOption (nd.children.map (buildTreeNode r fuel)) with
      | some cs => some (SessionTreeNode.mk sid nd.state cs)
      | none => none := by
  simp only [buildTreeNode, hl]

theorem containsId_buildTreeNode_mem_keys (r : Registry) :
    ∀ fuel sid t, buildTreeNode r fuel sid = some t →
      ∀ x, containsId x t = true → x ∈ keys r := by
  intro fuel
  induction fuel with
  | zero => intro sid t h; rw [buildTreeNode] at h; cases h
  | succ fuel ih =>
    intro sid t h x hx
    cases hl : lookup r sid with
    | none =>
      have hnone : buildTreeNode r (fuel + 1) sid = none := by
        simp only [buildTreeNode, hl]
      rw [hnone] at h
      cases h
    | some nd =>
      rw [buildTreeNode_succ r fuel sid nd hl] at h
      cases hseq : seqOption (nd.children.map (buildTreeNode r fuel)) with
      | none => rw [hseq] at h; cases h
      | some cs =>
        rw [hseq] at h
        cases h
        rw [containsId, Bool.or_eq_true] at hx
        rcases hx with h1 | h1
        · have : sid = x := by simpa using h1
          rw [← this, ← lookup_isSome_iff, hl]
          rfl
        · obtain ⟨t2, ht2, h2⟩ := (containsIdList_iff x cs).mp h1
          have hmem := seqOption_mem _ cs hseq t2 ht2
          obtain ⟨c, hc, hco⟩ := List.mem_map.mp hmem
          exact ih c t2 hco x h2

end Sessions

namespace Sessions

theorem buildTreeNode_isSome (r : Registry) (hInv : Inv r) :
    ∀ fuel sid, sid ∈ keys r → r.length - idxOf (keys r) sid ≤ fuel →
      (buildTreeNode r fuel sid).isSome := by
  intro fuel
  induction fuel with
  | zero =>
    intro sid hs hb
    exfalso
    have h1 := idxOf_lt_length (keys r) sid hs
    rw [keys_length] at h1
    omega
  | succ fuel ih =>
    intro sid hs hb
    have hsome : (lookup r sid).isSome := (lookup_isSome_iff r sid).mpr hs
    obtain ⟨nd, hl⟩ := Option.isSome_iff_exists.mp hsome
    have hmem : (sid, nd) ∈ r := lookup_mem r sid nd hl
    rw [buildTreeNode_succ r fuel sid nd hl]
    have hseq : (seqOption (nd.children.map (buildTreeNode r fuel))).isSome := by
      apply seqOption_isSome
      intro o ho
      obtain ⟨c, hc, hco⟩ := List.mem_map.mp ho
      obtain ⟨hsub, -⟩ := hInv.childLink sid nd c hmem hc
      have hcmem : c ∈ keys r := hsub.subset (by simp)
      have hlt : idxOf (keys r) sid < idxOf (keys r) c :=
        idxOf_lt_of_pair_sublist (keys r) hInv.nodup sid c hsub
      have hclen := idxOf_lt_length (keys r) c hcmem
      rw [keys_length] at hclen
      have hbound : r.length - idxOf (keys r) c ≤ fuel := by omega
      rw [← hco]
      exact ih c hcmem hbound
    obtain ⟨cs, hcs⟩ := Option.isSome_iff_exists.mp hseq
    rw [hcs]
    rfl

theorem rootIds_subset_keys (r : Registry) : ∀ x ∈ rootIds r, x ∈ keys r := by
  intro x hx
  rw [rootIds] at hx
  obtain ⟨e, he, heq⟩ := List.mem_map.mp hx
  have hmem := (List.mem_filter.mp he).1
  rw [← heq]
  exact List.mem_map_of_mem Prod.fst hmem

theorem getSessionTree_some (r : Registry) (hInv : Inv r) :
    ∃ t, getSessionTree r = some t ∧ t.totalSessions = r.length ∧
      (∀ n ∈ t.roots, ∀ x, containsId x n = true → x ∈ keys r) := by
  have hseq : (seqOption ((rootIds r).map (buildTreeNode r r.length))).isSome := by
    apply seqOption_isSome
    intro o ho
    obtain ⟨c, hc, hco⟩ := List.mem_map.mp ho
    have hck : c ∈ keys r := rootIds_subset_keys r c hc
    rw [← hco]
    exact buildTreeNode_isSome r hInv r.length c hck (Nat.sub_le _ _)
  obtain ⟨roots, hroots⟩ := Option.isSome_iff_exists.mp hseq
  refine ⟨⟨roots, r.length⟩, ?_, rfl, ?_⟩
  · rw [getSessionTree, hroots]
  · intro n hn x hx
    have hmem := seqOption_mem _ roots hroots n hn
    obtain ⟨c, hc, hco⟩ := List.mem_map.mp hmem
    exact containsId_buildTreeNode_mem_keys r r.length c n hco x hx

end Sessions

namespace Sessions

theorem parentField_some (psid : Option String) (p : String)
    (h : parentField psid = some p) : psid = some p := by
  cases psid with
  | none => rw [parentField] at h; cases h
  | some q =>
    rw [parentField] at h
    by_cases hq : q = ""
    · rw [if_pos (by simpa using hq)] at h; cases h
    · rw [if_neg (by simpa using hq)] at h; cases h; rfl

theorem inv_append_new (r : Registry) (hInv : Inv r) (sid : String)
    (par : Option String) (hs : sid ∉ keys r) :
    Inv (r ++ [(sid, { parent := par, children := [], state := DebugState.running })]) := by
  have hkeys : keys (r ++
      [(sid, { parent := par, children := [], state := DebugState.running })]) =
      keys r ++ [sid] := by simp [keys]
  refine ⟨?_, ?_, ?_⟩
  · rw [hkeys, List.nodup_append]
    refine ⟨hInv.nodup, List.nodup_singleton _, ?_⟩
    intro a ha hb
    rw [List.mem_singleton] at hb
    rw [hb] at ha
    exact hs ha
  · intro p nd c hmem hc
    rcases List.mem_append.mp hmem with h1 | h1
    · obtain ⟨hsub, cn, hlc, hpar⟩ := hInv.childLink p nd c h1 hc
      refine ⟨?_, cn, ?_, hpar⟩
      · rw [hkeys]
        exact hsub.trans (List.sublist_append_left _ _)
      · exact lookup_append_left r _ c cn hlc
    · exfalso
      have h2 := congrArg Prod.snd (List.mem_singleton.mp h1)
      simp only at h2
      rw [h2] at hc
      cases hc
  · intro p nd hmem
    rcases List.mem_append.mp hmem with h1 | h1
    · exact hInv.childNodup p nd h1
    · have h2 := congrArg Prod.snd (List.mem_singleton.mp h1)
      simp only at h2
      rw [h2]
      exact List.nodup_nil

theorem inv_push (r : Registry) (hInv : Inv r) (sid p : String)
    (hs : sid ∉ keys r) (hp : p ∈ keys r) (hps : p ≠ sid) :
    Inv (mapAt
      (r ++ [(sid, { parent := some p, children := [], state := DebugState.running })])
      p (fun nd => { nd with children := nd.children ++ [sid] })) := by
  have hInv1 : Inv (r ++
      [(sid, { parent := some p, children := [], state := DebugState.running })]) :=
    inv_append_new r hInv sid (some p) hs
  have hkeys1 : keys (r ++
      [(sid, { parent := some p, children := [], state := DebugState.running })]) =
      keys r ++ [sid] := by simp [keys]
  have hlook : ∀ y cn, lookup (r ++
        [(sid, { parent := some p, children := [], state := DebugState.running })]) y =
        some cn →
      ∃ cn2, lookup (mapAt (r ++
        [(sid, { parent := some p, children := [], state := DebugState.running })])
        p (fun nd => { nd with children := nd.children ++ [sid] })) y = some cn2 ∧
        cn2.parent = cn.parent := by
    intro y cn hy
    rw [lookup_mapAt]
    by_cases hyp : y = p
    · rw [if_pos (by simpa using hyp), hy]
      exact ⟨_, rfl, rfl⟩
    · rw [if_neg (by simpa using hyp), hy]
      exact ⟨cn, rfl, rfl⟩
  refine ⟨?_, ?_, ?_⟩
  · rw [keys_mapAt]
    exact hInv1.nodup
  · intro q m c hmem hc
    obtain ⟨m0, hm0, hcases⟩ := mem_mapAt _ p _ q m hmem
    rcases hcases with ⟨hqp, hmf⟩ | ⟨hqp, hmf⟩
    · rw [hmf] at hc
      have hc2 : c ∈ m0.children ++ [sid] := hc
      have hm0r : (p, m0) ∈ r := by
        rw [← hqp]
        rcases List.mem_append.mp hm0 with h1 | h1
        · exact h1
        · exfalso
          have h2 := congrArg Prod.fst (List.mem_singleton.mp h1)
          simp only at h2
          rw [hqp] at h2
          exact hps h2
      rcases List.mem_append.mp hc2 with hc1 | hc1
      · obtain ⟨hsub, cn, hlc, hpar⟩ := hInv.childLink p m0 c hm0r hc1
        refine ⟨?_, ?_⟩
        · rw [keys_mapAt, hkeys1, hqp]
          exact hsub.trans (List.sublist_append_left _ _)
        · have hlc1 := lookup_append_left r
            [(sid, { parent := some p, children := [], state := DebugState.running })]
            c cn hlc
          obtain ⟨cn2, hl2, hp2⟩ := hlook c cn hlc1
          exact ⟨cn2, hl2, by rw [hp2, hpar, hqp]⟩
      · rw [List.mem_singleton] at hc1
        subst hc1
        refine ⟨?_, ?_⟩
        · rw [keys_mapAt, hkeys1, hqp]
          have h1 : [p].Sublist (keys r) := List.singleton_sublist.mpr hp
          have h2 := List.Sublist.append h1 (List.Sublist.refl [c])
          simpa using h2
        · have hlsid : lookup (r ++
              [(c, { parent := some p, children := [], state := DebugState.running })]) c =
              some { parent := some p, children := [], state := DebugState.running } := by
            rw [lookup_append_right r _ c hs, lookup_cons]
            simp
          obtain ⟨cn2, hl2, hp2⟩ := hlook c _ hlsid
          refine ⟨cn2, hl2, ?_⟩
          rw [hp2, hqp]
    · rw [hmf] at hc
      rcases List.mem_append.mp hm0 with h1 | h1
      · obtain ⟨hsub, cn, hlc, hpar⟩ := hInv.childLink q m0 c h1 hc
        refine ⟨?_, ?_⟩
        · rw [keys_mapAt, hkeys1]
          exact hsub.trans (List.sublist_append_left _ _)
        · have hlc1 := lookup_append_left r
            [(sid, { parent := some p, children := [], state := DebugState.running })]
            c cn hlc
          obtain ⟨cn2, hl2, hp2⟩ := hlook c cn hlc1
          exact ⟨cn2, hl2, by rw [hp2, hpar]⟩
      · exfalso
        have h2 := congrArg Prod.snd (List.mem_singleton.mp h1)
        simp only at h2
        rw [h2] at hc
        cases hc
  · intro q m hmem
    obtain ⟨m0, hm0, hcases⟩ := mem_mapAt _ p _ q m hmem
    rcases hcases with ⟨hqp, hmf⟩ | ⟨hqp, hmf⟩
    · rw [hmf]
      have hm0r : (p, m0) ∈ r := by
        rw [← hqp]
        rcases List.mem_append.mp hm0 with h1 | h1
        · exact h1
        · exfalso
          have h2 := congrArg Prod.fst (List.mem_singleton.mp h1)
          simp only at h2
          rw [hqp] at h2
          exact hps h2
      have hnd := hInv.childNodup p m0 hm0r
      have hsidnot : sid ∉ m0.children := by
        intro hcs
        obtain ⟨hsub, -⟩ := hInv.childLink p m0 sid hm0r hcs
        exact hs (hsub.subset (by simp))
      have hfin : (m0.children ++ [sid]).Nodup := by
        rw [List.nodup_append]
        refine ⟨hnd, List.nodup_singleton _, ?_⟩
        intro a ha hb
        rw [List.mem_singleton] at hb
        rw [hb] at ha
        exact hsidnot ha
      exact hfin
    · rw [hmf]
      rcases List.mem_append.mp hm0 with h1 | h1
      · exact hInv.childNodup q m0 h1
      · have h2 := congrArg Prod.snd (List.mem_singleton.mp h1)
        simp only at h2
        rw [h2]
        exact List.nodup_nil

end Sessions

namespace Sessions

theorem inv_nil : Inv ([] : Registry) := by
  refine ⟨?_, ?_, ?_⟩
  · simp [keys]
  · intro p nd c h; cases h
  · intro p nd h; cases h

theorem inv_addSession (r : Registry) (hInv : Inv r) (sid : String)
    (psid : Option String) (hne : psid ≠ some sid) :
    Inv (addSession r sid psid) := by
  by_cases hh : hasId r sid = true
  · have heq : addSession r sid psid = r := by rw [addSession, if_pos hh]
    rw [heq]
    exact hInv
  · have hs : sid ∉ keys r := fun hc => hh ((hasId_iff r sid).mpr hc)
    cases hp : parentField psid with
    | none =>
      have heq : addSession r sid psid = r ++ [(sid, { parent := parentField psid, children := [], state := DebugState.running })] := by
        rw [addSession, if_neg hh]
        simp only [hp]
      rw [heq, hp]
      exact inv_append_new r hInv sid none hs
    | some p =>
      have hppsid : psid = some p := parentField_some psid p hp
      have hpsid_ne : p ≠ sid := by
        intro hc
        rw [hc] at hppsid
        exact hne hppsid
      by_cases hpk : p ∈ keys r
      · have hpk1 : hasId (r ++ [(sid, { parent := parentField psid, children := [], state := DebugState.running })]) p = true := by
          rw [hasId_iff, keys_append, List.mem_append]
          exact Or.inl hpk
        have heq : addSession r sid psid = mapAt (r ++ [(sid, { parent := parentField psid, children := [], state := DebugState.running })]) p (fun nd => { nd with children := nd.children ++ [sid] }) := by
          rw [addSession, if_neg hh]
          simp only [hp]
          rw [if_pos (by rw [hp] at hpk1; exact hpk1)]
        rw [heq, hp]
        exact inv_push r hInv sid p hs hpk hpsid_ne
      · have hpk1 : ¬hasId (r ++ [(sid, { parent := parentField psid, children := [], state := DebugState.running })]) p = true := by
          rw [hasId_iff, keys_append, List.mem_append]
          rintro (h1 | h1)
          · exact hpk h1
          · have hps2 : p = sid := by simpa [keys] using h1
            exact hpsid_ne hps2
        have heq : addSession r sid psid = r ++ [(sid, { parent := parentField psid, children := [], state := DebugState.running })] := by
          rw [addSession, if_neg hh]
          simp only [hp]
          rw [if_neg (by rw [hp] at hpk1; exact hpk1)]
        rw [heq, hp]
        exact inv_append_new r hInv sid (some p) hs

theorem inv_filterKey (r1 : Registry) (hInv1 : Inv r1) (sid : String)
    (hnochild : ∀ q m, (q, m) ∈ r1 → sid ∉ m.children) :
    Inv (r1.filter fun e => e.1 != sid) := by
  refine ⟨?_, ?_, ?_⟩
  · rw [keys_filterKey]
    exact hInv1.nodup.filter _
  · intro q m c hmem hc
    obtain ⟨hmem1, hqs⟩ := (mem_filterKey r1 sid q m).mp hmem
    obtain ⟨hsub, cn, hlc, hpar⟩ := hInv1.childLink q m c hmem1 hc
    have hcs : c ≠ sid := by
      intro hcc
      rw [hcc] at hc
      exact hnochild q m hmem1 hc
    refine ⟨?_, cn, ?_, hpar⟩
    · rw [keys_filterKey]
      exact pair_sublist_filter sid hsub hqs hcs
    · rw [lookup_filterKey, if_neg (by simpa using hcs)]
      exact hlc
  · intro q m hmem
    exact hInv1.childNodup q m ((mem_filterKey r1 sid q m).mp hmem).1

theorem inv_mapAt_rem (r : Registry) (hInv : Inv r) (pid sid : String) :
    Inv (mapAt r pid
      (fun m => { m with children := m.children.filter (fun c => c != sid) })) := by
  refine ⟨?_, ?_, ?_⟩
  · rw [keys_mapAt]
    exact hInv.nodup
  · intro q m c hmem hc
    obtain ⟨m0, hm0, hcases⟩ := mem_mapAt r pid _ q m hmem
    have hcsub : c ∈ m0.children := by
      rcases hcases with ⟨hqp, hmf⟩ | ⟨hqp, hmf⟩
      · rw [hmf] at hc
        have hc2 : c ∈ m0.children.filter (fun c => c != sid) := hc
        exact (List.mem_filter.mp hc2).1
      · rw [hmf] at hc
        exact hc
    obtain ⟨hsub, cn, hlc, hpar⟩ := hInv.childLink q m0 c hm0 hcsub
    refine ⟨by rw [keys_mapAt]; exact hsub, ?_⟩
    rw [lookup_mapAt]
    by_cases hcp : c = pid
    · rw [if_pos (by simpa using hcp), hlc]
      exact ⟨_, rfl, hpar⟩
    · rw [if_neg (by simpa using hcp), hlc]
      exact ⟨cn, rfl, hpar⟩
  · intro q m hmem
    obtain ⟨m0, hm0, hcases⟩ := mem_mapAt r pid _ q m hmem
    have hnd := hInv.childNodup q m0 hm0
    rcases hcases with ⟨hqp, hmf⟩ | ⟨hqp, hmf⟩
    · rw [hmf]
      exact hnd.filter _
    · rw [hmf]
      exact hnd

theorem nochild_of_parent (r : Registry) (hInv : Inv r) (sid : String)
    (nd : SessionNode) (hl : lookup r sid = some nd) :
    ∀ q m, (q, m) ∈ r → sid ∈ m.children → nd.parent = some q := by
  intro q m hmem hcs
  obtain ⟨-, cn, hlc, hpar⟩ := hInv.childLink q m sid hmem hcs
  rw [hl] at hlc
  cases hlc
  exact hpar

theorem inv_removeSession (r : Registry) (hInv : Inv r) (sid : String) :
    Inv (removeSession r sid) := by
  cases hl : lookup r sid with
  | none =>
    have heq : removeSession r sid = r := by rw [removeSession, hl]
    rw [heq]
    exact hInv
  | some nd =>
    cases hp : nd.parent with
    | none =>
      have heq : removeSession r sid = r.filter (fun e => e.1 != sid) := by
        simp only [removeSession, hl, hp]
      rw [heq]
      apply inv_filterKey r hInv sid
      intro q m hmem hcs
      have hq := nochild_of_parent r hInv sid nd hl q m hmem hcs
      rw [hp] at hq
      cases hq
    | some pid =>
      by_cases hpk : hasId r pid = true
      · have heq : removeSession r sid =
            (mapAt r pid
              (fun m => { m with children := m.children.filter (fun c => c != sid) })).filter
              (fun e => e.1 != sid) := by
          simp only [removeSession, hl, hp]
          rw [if_pos hpk]
        rw [heq]
        apply inv_filterKey _ (inv_mapAt_rem r hInv pid sid) sid
        intro q m hmem hcs
        obtain ⟨m0, hm0, hcases⟩ := mem_mapAt r pid _ q m hmem
        rcases hcases with ⟨hqp, hmf⟩ | ⟨hqp, hmf⟩
        · rw [hmf] at hcs
          have hcs2 : sid ∈ m0.children.filter (fun c => c != sid) := hcs
          have hfalse := (List.mem_filter.mp hcs2).2
          simp at hfalse
        · rw [hmf] at hcs
          have hq := nochild_of_parent r hInv sid nd hl q m0 hm0 hcs
          rw [hp] at hq
          injection hq with hq2
          exact hqp hq2.symm
      · have heq : removeSession r sid = r.filter (fun e => e.1 != sid) := by
          simp only [removeSession, hl, hp]
          rw [if_neg hpk]
        rw [heq]
        apply inv_filterKey r hInv sid
        intro q m hmem hcs
        have hq := nochild_of_parent r hInv sid nd hl q m hmem hcs
        rw [hp] at hq
        injection hq with hq2
        have hqk : q ∈ keys r := mem_keys_of_mem hmem
        rw [← hq2] at hqk
        exact hpk ((hasId_iff r pid).mpr hqk)

theorem reachable_inv (r : Registry) (h : Reachable r) : Inv r := by
  induction h with
  | empty => exact inv_nil
  | add sid psid hne hprev ih => exact inv_addSession _ ih sid psid hne
  | remove sid hprev ih => exact inv_removeSession _ ih sid

end Sessions

namespace Sessions

theorem removeSession_cases (r : Registry) (sid : String) (nd : SessionNode)
    (hl : lookup r sid = some nd) :
    ∃ r1 : Registry, removeSession r sid = r1.filter (fun e => e.1 != sid) ∧
      keys r1 = keys r ∧ r1.length = r.length := by
  cases hp : nd.parent with
  | none => exact ⟨r, by simp only [removeSession, hl, hp], rfl, rfl⟩
  | some pid =>
    by_cases hpk : hasId r pid = true
    · refine ⟨mapAt r pid
        (fun m => { m with children := m.children.filter (fun c => c != sid) }),
        ?_, keys_mapAt _ _ _, length_mapAt _ _ _⟩
      simp only [removeSession, hl, hp]
      rw [if_pos hpk]
    · refine ⟨r, ?_, rfl, rfl⟩
      simp only [removeSession, hl, hp]
      rw [if_neg hpk]

theorem not_mem_keys_removeSession (r : Registry) (sid : String) (nd : SessionNode)
    (hl : lookup r sid = some nd) : sid ∉ keys (removeSession r sid) := by
  obtain ⟨r1, heq, hk, -⟩ := removeSession_cases r sid nd hl
  rw [heq, keys_filterKey]
  intro hc
  have := (List.mem_filter.mp hc).2
  simp at this

theorem length_removeSession (r : Registry) (hInv : Inv r) (sid : String)
    (nd : SessionNode) (hl : lookup r sid = some nd) (hs : sid ∈ keys r) :
    (removeSession r sid).length + 1 = r.length := by
  obtain ⟨r1, heq, hk, hlen⟩ := removeSession_cases r sid nd hl
  rw [heq]
  have h1 : (keys r1).Nodup := by rw [hk]; exact hInv.nodup
  have h2 : sid ∈ keys r1 := by rw [hk]; exact hs
  rw [length_filterKey_of_mem r1 sid h1 h2, hlen]

theorem removed_not_in_parent_children (r : Registry) (sid : String)
    (nd : SessionNode) (hl : lookup r sid = some nd) (pid : String)
    (hp : nd.parent = some pid) (pn : SessionNode)
    (hlp : lookup (removeSession r sid) pid = some pn) : sid ∉ pn.children := by
  by_cases hps : pid = sid
  · exfalso
    obtain ⟨r1, heq, hk, -⟩ := removeSession_cases r sid nd hl
    rw [heq, lookup_filterKey, hps, if_pos (by simp)] at hlp
    cases hlp
  · by_cases hpk : hasId r pid = true
    · have heq : removeSession r sid = (mapAt r pid (fun m => { m with children := m.children.filter (fun c => c != sid) })).filter (fun e => e.1 != sid) := by
        simp only [removeSession, hl, hp]
        rw [if_pos hpk]
      rw [heq, lookup_filterKey, if_neg (by simpa using hps),
        lookup_mapAt, if_pos (by simp)] at hlp
      cases hlm : lookup r pid with
      | none => rw [hlm] at hlp; cases hlp
      | some pm =>
        rw [hlm] at hlp
        have hlp2 : some { pm with children := pm.children.filter (fun c => c != sid) } = some pn := hlp
        cases hlp2
        intro hcs
        have hcs2 : sid ∈ pm.children.filter (fun c => c != sid) := hcs
        have := (List.mem_filter.mp hcs2).2
        simp at this
    · exfalso
      have hln : lookup r pid = none := by
        cases hlk : lookup r pid with
        | none => rfl
        | some v =>
          exfalso
          apply hpk
          rw [hasId, hlk]
          rfl
      have heq : removeSession r sid = r.filter (fun e => e.1 != sid) := by
        simp only [removeSession, hl, hp]
        rw [if_neg hpk]
      rw [heq, lookup_filterKey, if_neg (by simpa using hps), hln] at hlp
      cases hlp

end Sessions

/-- C1: for every session S tracked in a reachable registry, after
`removeSession` (the `onDidTerminateDebugSession` path) `getSessionTree()`
succeeds and its tree contains no node with id = S, S's former parent's
children list no longer contains S, and `totalSessions` equals the number of
sessions remaining in the registry map (one fewer than before). -/
theorem c1_removed_session_absent (r : Sessions.Registry) (hr : Sessions.Reachable r)
    (sid : String) (hs : sid ∈ Sessions.keys r) :
    ∃ t, Sessions.getSessionTree (Sessions.removeSession r sid) = some t ∧
      (∀ n ∈ t.roots, Sessions.containsId sid n = false) ∧
      (∀ nd pid pn, Sessions.lookup r sid = some nd → nd.parent = some pid →
        Sessions.lookup (Sessions.removeSession r sid) pid = some pn →
        sid ∉ pn.children) ∧
      t.totalSessions = (Sessions.removeSession r sid).length ∧
      t.totalSessions + 1 = r.length := by
  have hInv : Sessions.Inv r := Sessions.reachable_inv r hr
  have hInv2 : Sessions.Inv (Sessions.removeSession r sid) :=
    Sessions.inv_removeSession r hInv sid
  obtain ⟨nd, hl⟩ := Option.isSome_iff_exists.mp ((Sessions.lookup_isSome_iff r sid).mpr hs)
  obtain ⟨t, ht, htot, hids⟩ := Sessions.getSessionTree_some _ hInv2
  refine ⟨t, ht, ?_, ?_, htot, ?_⟩
  · intro n hn
    cases hcon : Sessions.containsId sid n with
    | false => rfl
    | true =>
      exfalso
      exact Sessions.not_mem_keys_removeSession r sid nd hl (hids n hn sid hcon)
  · intro nd2 pid pn hl2 hp2 hlp
    rw [hl] at hl2
    cases hl2
    exact Sessions.removed_not_in_parent_children r sid nd hl pid hp2 pn hlp
  · rw [htot]
    exact Sessions.length_removeSession r hInv sid nd hl hs

/-- Witness for C1 at a concrete history: root `a`, child `b` of `a`, then
`b` is removed. -/
theorem c1_witness :
    ("b" ∈ Sessions.keys Sessions.c1reg) ∧
    (∃ t, Sessions.getSessionTree (Sessions.removeSession Sessions.c1reg "b") = some t ∧
      (∀ n ∈ t.roots, Sessions.containsId "b" n = false) ∧
      (∀ nd pid pn, Sessions.lookup Sessions.c1reg "b" = some nd → nd.parent = some pid →
        Sessions.lookup (Sessions.removeSession Sessions.c1reg "b") pid = some pn →
        "b" ∉ pn.children) ∧
      t.totalSessions = (Sessions.removeSession Sessions.c1reg "b").length ∧
      t.totalSessions + 1 = Sessions.c1reg.length) :=
  ⟨by decide, c1_removed_session_absent Sessions.c1reg
    (Sessions.Reachable.add "b" (some "a") (by decide)
      (Sessions.Reachable.add "a" none (by decide) Sessions.Reachable.empty))
    "b" (by decide)⟩

/-- C2 counterexample: after the reachable history [add root `p`; add child
`c` of `p`; remove `p`], session `c` remains tracked with a non-null parent
field `p` that no longer exists in the registry map — the claimed invariant
"every non-null parent exists in the registry" fails once a parent is
removed while its children remain. -/
theorem c2_counterexample :
    Sessions.Reachable Sessions.c2reg ∧
    Sessions.lookup Sessions.c2reg "c" =
      some { parent := some "p", children := [], state := DebugState.running } ∧
    "p" ∉ Sessions.keys Sessions.c2reg := by
  refine ⟨?_, by decide, by decide⟩
  show Sessions.Reachable (Sessions.removeSession
    (Sessions.addSession (Sessions.addSession [] "p" none) "c" (some "p")) "p")
  exact Sessions.Reachable.remove "p"
    (Sessions.Reachable.add "c" (some "p") (by decide)
      (Sessions.Reachable.add "p" none (by decide) Sessions.Reachable.empty))

/-- C2 (amended): after any sequence of addSession/removeSession operations,
the CHILDREN relation forms a forest: children lists are duplicate-free,
every id in a children list belongs to a registry entry whose parent field
names exactly that parent, the relation is acyclic (each child entry sits
strictly after its parent entry in insertion order, hence no session is its
own descendant), and each child has a unique parent; but a session's parent
FIELD may dangle — name an id absent from the registry — after its parent is
removed while it remains (children of a removed session are not recursively
removed and their parent fields are not cleared). -/
theorem c2_amended_children_forest (r : Sessions.Registry)
    (hr : Sessions.Reachable r) :
    (∀ p nd, (p, nd) ∈ r → nd.children.Nodup) ∧
    (∀ p nd c, (p, nd) ∈ r → c ∈ nd.children →
      c ∈ Sessions.keys r ∧
      ∃ cn, Sessions.lookup r c = some cn ∧ cn.parent = some p) ∧
    (∀ p nd c, (p, nd) ∈ r → c ∈ nd.children →
      Sessions.idxOf (Sessions.keys r) p < Sessions.idxOf (Sessions.keys r) c) ∧
    (∀ p nd, (p, nd) ∈ r → p ∉ nd.children) ∧
    (∀ p np q nq c, (p, np) ∈ r → (q, nq) ∈ r → c ∈ np.children →
      c ∈ nq.children → p = q) := by
  have hInv := Sessions.reachable_inv r hr
  refine ⟨hInv.childNodup, ?_, ?_, ?_, ?_⟩
  · intro p nd c hm hc
    obtain ⟨hsub, cn, hlc, hpar⟩ := hInv.childLink p nd c hm hc
    exact ⟨hsub.subset (by simp), cn, hlc, hpar⟩
  · intro p nd c hm hc
    obtain ⟨hsub, -⟩ := hInv.childLink p nd c hm hc
    exact Sessions.idxOf_lt_of_pair_sublist _ hInv.nodup p c hsub
  · intro p nd hm hc
    obtain ⟨hsub, -⟩ := hInv.childLink p nd p hm hc
    have := Sessions.idxOf_lt_of_pair_sublist _ hInv.nodup p p hsub
    omega
  · intro p np q nq c hmp hmq hcp hcq
    obtain ⟨-, cn1, hl1, hp1⟩ := hInv.childLink p np c hmp hcp
    obtain ⟨-, cn2, hl2, hp2⟩ := hInv.childLink q nq c hmq hcq
    rw [hl1] at hl2
    cases hl2
    rw [hp1] at hp2
    exact Option.some.inj hp2

/-- Witness for the amended C2 at a concrete reachable registry. -/
theorem c2_witness :
    (∀ p nd, (p, nd) ∈ Sessions.c1reg → nd.children.Nodup) ∧
    (∀ p nd c, (p, nd) ∈ Sessions.c1reg → c ∈ nd.children →
      c ∈ Sessions.keys Sessions.c1reg ∧
      ∃ cn, Sessions.lookup Sessions.c1reg c = some cn ∧ cn.parent = some p) ∧
    (∀ p nd c, (p, nd) ∈ Sessions.c1reg → c ∈ nd.children →
      Sessions.idxOf (Sessions.keys Sessions.c1reg) p <
        Sessions.idxOf (Sessions.keys Sessions.c1reg) c) ∧
    (∀ p nd, (p, nd) ∈ Sessions.c1reg → p ∉ nd.children) ∧
    (∀ p np q nq c, (p, np) ∈ Sessions.c1reg → (q, nq) ∈ Sessions.c1reg →
      c ∈ np.children → c ∈ nq.children → p = q) :=
  c2_amended_children_forest Sessions.c1reg
    (Sessions.Reachable.add "b" (some "a") (by decide)
      (Sessions.Reachable.add "a" none (by decide) Sessions.Reachable.empty))
